import Mathlib

/-!
# Verification of the `last-word` exit-interview engine

Shallow embedding of `supabase/functions/exit-interview/index.ts` (and the
shared `_shared/gemini.ts` helper) in Lean 4, together with proofs and
refutations of the frozen specification claims.

Conventions of the embedding:
* JavaScript strings are modelled as Lean `String` / `List Char`; all the
  character-level primitives the source uses (`trim`, `toLowerCase`,
  `includes`, `startsWith`, `slice`, `split`, regex-literal replacement)
  are defined below, faithful to their ECMAScript behaviour on the
  Unicode scalar values `Char` can represent.
* `toLowerCase` is modelled by ASCII lowercasing (`Char.toLower`).  The
  source only ever compares lowercased text against ASCII literals
  ("start", rule `contains` needles), and no non-ASCII character
  lowercases to an ASCII letter, so the comparisons modelled here agree
  with the ECMAScript ones.
* Untyped JavaScript values flowing out of `JSON.parse` are modelled by
  the inductive `JsVal`, with the exact coercions the source applies to
  them (`String(...)`, `Boolean(...)`, `Array.isArray`, `??`, optional
  chaining, truthiness).  A parsed JSON number is carried as its literal
  text; the source never performs arithmetic on parsed numbers, it only
  ever stringifies them or tests their truthiness.
* Fallible external effects (database inserts, provider HTTP calls,
  webhook POSTs) are inputs of the embedding: the handler is a pure
  function of the request plus an environment recording each external
  outcome, and it returns the HTTP response together with the ordered
  trace of storage/network events it performed.
-/

set_option maxRecDepth 100000
set_option maxHeartbeats 1000000

namespace LastWord

/-! ## ECMAScript string primitives -/

/-- The WhiteSpace ∪ LineTerminator set recognised by `String.prototype.trim`. -/
def isJsWs (c : Char) : Bool :=
  (0x09 ≤ c.val && c.val ≤ 0x0D) || c = ' ' || c.val = 0xA0 || c.val = 0x1680 ||
  (0x2000 ≤ c.val && c.val ≤ 0x200A) || c.val = 0x2028 || c.val = 0x2029 ||
  c.val = 0x202F || c.val = 0x205F || c.val = 0x3000 || c.val = 0xFEFF

/-- Drop leading JS whitespace. -/
def ltrimL : List Char → List Char
  | [] => []
  | c :: rest => if isJsWs c then ltrimL rest else c :: rest

/-- Drop trailing JS whitespace. -/
def rtrimL (s : List Char) : List Char :=
  (ltrimL s.reverse).reverse

/-- `String.prototype.trim` on a character list. -/
def trimL (s : List Char) : List Char :=
  rtrimL (ltrimL s)

/-- `String.prototype.trim`. -/
def jsTrim (s : String) : String :=
  String.mk (trimL s.data)

/-- `String.prototype.toLowerCase`, modelled by ASCII lowercasing. -/
def jsLower (s : String) : String :=
  String.mk (s.data.map Char.toLower)

/-- Number of positions of `s` at which the pattern `pat` occurs. -/
def countSub (pat : List Char) : List Char → Nat
  | [] => if pat.isPrefixOf ([] : List Char) then 1 else 0
  | c :: rest =>
    (if pat.isPrefixOf (c :: rest) then 1 else 0) + countSub pat rest

/-- Substring containment (`String.prototype.includes`) on lists. -/
def containsSub (pat s : List Char) : Bool :=
  decide (0 < countSub pat s)

/-- Leftmost occurrence of `pat` in `s`: returns the part before the
occurrence and the part after it. -/
def findFirst (pat : List Char) : List Char → Option (List Char × List Char)
  | [] => if pat.isPrefixOf ([] : List Char) then some ([], []) else none
  | c :: rest =>
    if pat.isPrefixOf (c :: rest) then some ([], (c :: rest).drop pat.length)
    else
      match findFirst pat rest with
      | some (pre, post) => some (c :: pre, post)
      | none => none

/-- `String.prototype.split` on a single-character separator. -/
def splitOnChar (sep : Char) : List Char → List (List Char)
  | [] => [[]]
  | c :: rest =>
    if c = sep then [] :: splitOnChar sep rest
    else
      match splitOnChar sep rest with
      | [] => [[c]]
      | l :: ls => (c :: l) :: ls

/-! ### Lemmas about `countSub` -/

theorem countSub_nil (pat : List Char) (h : pat ≠ []) : countSub pat [] = 0 := by
  cases pat with
  | nil => exact absurd rfl h
  | cons p ps => simp [countSub, List.isPrefixOf]

theorem isPrefixOf_snoc_of_not_mem {pat x : List Char} {ch : Char}
    (h : ch ∉ pat) : pat.isPrefixOf (x ++ [ch]) = pat.isPrefixOf x := by
  induction x generalizing pat with
  | nil =>
    cases pat with
    | nil => simp [List.isPrefixOf]
    | cons p ps =>
      have hne : p ≠ ch := fun he => h (he ▸ List.mem_cons_self p ps)
      have hb : (p == ch) = false := beq_eq_false_iff_ne.mpr hne
      simp [List.isPrefixOf, hb]
  | cons a x ih =>
    cases pat with
    | nil => simp [List.isPrefixOf]
    | cons p ps =>
      have hps : ch ∉ ps := fun hm => h (List.mem_cons_of_mem p hm)
      simp only [List.cons_append, List.isPrefixOf, List.append_eq]
      rw [ih hps]

theorem isPrefixOf_append_sep_of_not_mem {pat x b : List Char} {ch : Char}
    (h : ch ∉ pat) :
    pat.isPrefixOf (x ++ ch :: b) = pat.isPrefixOf (x ++ [ch]) := by
  induction x generalizing pat with
  | nil =>
    cases pat with
    | nil => simp [List.isPrefixOf]
    | cons p ps =>
      have hne : p ≠ ch := fun he => h (he ▸ List.mem_cons_self p ps)
      have hb : (p == ch) = false := beq_eq_false_iff_ne.mpr hne
      simp [List.isPrefixOf, hb]
  | cons a x ih =>
    cases pat with
    | nil => simp [List.isPrefixOf]
    | cons p ps =>
      have hps : ch ∉ ps := fun hm => h (List.mem_cons_of_mem p hm)
      simp only [List.cons_append, List.isPrefixOf, List.append_eq]
      rw [ih hps]

/-- Appending a character that does not occur in the pattern does not
change the occurrence count. -/
theorem countSub_snoc_of_not_mem {pat x : List Char} {ch : Char}
    (hpat : pat ≠ []) (h : ch ∉ pat) :
    countSub pat (x ++ [ch]) = countSub pat x := by
  induction x with
  | nil =>
    rw [countSub_nil pat hpat]
    cases pat with
    | nil => exact absurd rfl hpat
    | cons p ps =>
      have hne : p ≠ ch := fun he => h (he ▸ List.mem_cons_self p ps)
      simp [countSub, List.isPrefixOf, beq_iff_eq, hne, countSub_nil]
  | cons a x ih =>
    simp only [List.cons_append, countSub, List.append_eq]
    have he : pat.isPrefixOf (a :: (x ++ [ch])) = pat.isPrefixOf (a :: x) :=
      @isPrefixOf_snoc_of_not_mem pat (a :: x) ch h
    rw [ih]
    simp only [he]

/-- Occurrence counting splits at a separator character that does not
occur in the pattern. -/
theorem countSub_append_sep {pat a b : List Char} {ch : Char}
    (hpat : pat ≠ []) (h : ch ∉ pat) :
    countSub pat (a ++ ch :: b) = countSub pat a + countSub pat b := by
  induction a with
  | nil =>
    cases pat with
    | nil => exact absurd rfl hpat
    | cons p ps =>
      have hne : p ≠ ch := fun he => h (he ▸ List.mem_cons_self p ps)
      have hb : (p == ch) = false := beq_eq_false_iff_ne.mpr hne
      simp [countSub, List.isPrefixOf, hb, countSub_nil _ hpat]
  | cons a0 a ih =>
    simp only [List.cons_append, countSub, List.append_eq]
    have h1 : pat.isPrefixOf (a0 :: (a ++ ch :: b)) =
        pat.isPrefixOf (a0 :: (a ++ [ch])) :=
      @isPrefixOf_append_sep_of_not_mem pat (a0 :: a) b ch h
    have h2 : pat.isPrefixOf (a0 :: (a ++ [ch])) = pat.isPrefixOf (a0 :: a) :=
      @isPrefixOf_snoc_of_not_mem pat (a0 :: a) ch h
    rw [ih]
    simp only [h1, h2]
    omega

/-! ## Untyped JavaScript values

`JsVal` models the values `JSON.parse` can produce, plus `undefined`
(the result of a failed property access).  A number is carried as its
literal text: the source never computes with parsed numbers, it only
applies `String(...)` and `Boolean(...)` to them, so the literal text
(faithful whenever the literal is the canonical representation of the
double it denotes) determines everything the source observes. -/

inductive JsVal where
  | undefinedV : JsVal
  | jsNull : JsVal
  | jsBool (b : Bool) : JsVal
  | num (lit : String) : JsVal
  | str (s : String) : JsVal
  | arr (elems : List JsVal) : JsVal
  | obj (fields : List (String × JsVal)) : JsVal
deriving Repr

/-- A JSON numeric literal denotes zero iff every mantissa digit is 0. -/
def isZeroNumLit (lit : String) : Bool :=
  let mantissa := lit.data.takeWhile (fun c => c ≠ 'e' ∧ c ≠ 'E')
  mantissa.all (fun c => ¬ c.isDigit ∨ c = '0')

/-- ECMAScript truthiness. -/
def jsTruthy : JsVal → Bool
  | .undefinedV => false
  | .jsNull => false
  | .jsBool b => b
  | .num lit => ¬ isZeroNumLit lit
  | .str s => s ≠ ""
  | .arr _ => true
  | .obj _ => true

/-- `v === undefined || v === null` (the guard used by `??` and `?.`). -/
def jsNullish : JsVal → Bool
  | .undefinedV => true
  | .jsNull => true
  | _ => false

/-- The `??` operator. -/
def jsCoalesce (v w : JsVal) : JsVal :=
  if jsNullish v then w else v

/-- `Array.isArray`. -/
def jsIsArray : JsVal → Bool
  | .arr _ => true
  | _ => false

/-- Property access `v?.k` / `v[k]` for the non-numeric keys the source
reads: an object field (last binding wins, as after `JSON.parse`), and
`undefined` on every other value. -/
def jsGet (v : JsVal) (k : String) : JsVal :=
  match v with
  | .obj fields =>
    match (fields.reverse.find? (fun f => f.1 == k)) with
    | some f => f.2
    | none => .undefinedV
  | _ => .undefinedV

/-- Strict equality `v === s` against a string literal. -/
def jsIsStr (v : JsVal) (s : String) : Bool :=
  match v with
  | .str t => t == s
  | _ => false

mutual

/-- The `String(...)` coercion. -/
def jsToString : JsVal → String
  | .undefinedV => "undefined"
  | .jsNull => "null"
  | .jsBool b => if b then "true" else "false"
  | .num lit => lit
  | .str s => s
  | .arr xs => String.intercalate "," (jsElemStrs xs)
  | .obj _ => "[object Object]"

/-- The elements of `Array.prototype.join` with separator `","` (the
`String(...)` of an array): `null`/`undefined` elements become the
empty string, other elements are `String(...)`-coerced. -/
def jsElemStrs : List JsVal → List String
  | [] => []
  | .undefinedV :: xs => "" :: jsElemStrs xs
  | .jsNull :: xs => "" :: jsElemStrs xs
  | x :: xs => jsToString x :: jsElemStrs xs

end

/-! ## `JSON.stringify` string escaping -/

/-- Hex digit, lowercase (as emitted by `JSON.stringify`). -/
def hexDigit (n : Nat) : Char :=
  if n < 10 then Char.ofNat (48 + n) else Char.ofNat (87 + n)

/-- `JSON.stringify` escaping of one character. -/
def escChars (c : Char) : List Char :=
  if c = '"' then ['\\', '"']
  else if c = '\\' then ['\\', '\\']
  else if c = '\x08' then ['\\', 'b']
  else if c = '\x09' then ['\\', 't']
  else if c = '\x0A' then ['\\', 'n']
  else if c = '\x0C' then ['\\', 'f']
  else if c = '\x0D' then ['\\', 'r']
  else if c.toNat < 32 then
    ['\\', 'u', '0', '0', hexDigit (c.toNat / 16), hexDigit (c.toNat % 16)]
  else [c]

/-- `JSON.stringify` escaping of a character list. -/
def escList (s : List Char) : List Char :=
  (s.map escChars).flatten

/-- `JSON.stringify` of a string value. -/
def jsonQuote (s : String) : String :=
  "\"" ++ String.mk (escList s.data) ++ "\""

/-! ## A `JSON.parse` model

Executable parser for the JSON grammar (RFC 8259, as implemented by
`JSON.parse`): strings with escapes, numbers (kept as literal text),
literals, arrays and objects, with the four JSON whitespace characters.
Surrogate-pair `\uXXXX` escapes are outside the model (`Char` cannot
carry lone surrogates); no input in this development uses them. -/

/-- JSON whitespace (space, tab, line feed, carriage return). -/
def isJsonWs (c : Char) : Bool :=
  c = ' ' || c = '\x09' || c = '\x0A' || c = '\x0D'

/-- Skip JSON whitespace. -/
def skipJsonWs : List Char → List Char
  | [] => []
  | c :: rest => if isJsonWs c then skipJsonWs rest else c :: rest

/-- Value of a hex digit. -/
def hexVal (c : Char) : Option Nat :=
  if '0' ≤ c ∧ c ≤ '9' then some (c.toNat - 48)
  else if 'a' ≤ c ∧ c ≤ 'f' then some (c.toNat - 87)
  else if 'A' ≤ c ∧ c ≤ 'F' then some (c.toNat - 55)
  else none

/-- The single-character JSON escapes. -/
def jsonUnescChar (c : Char) : Option Char :=
  if c = '"' then some '"'
  else if c = '\\' then some '\\'
  else if c = '/' then some '/'
  else if c = 'b' then some '\x08'
  else if c = 'f' then some '\x0C'
  else if c = 'n' then some '\x0A'
  else if c = 'r' then some '\x0D'
  else if c = 't' then some '\x09'
  else none

/-- Parse the body of a JSON string (the opening quote already
consumed): returns the decoded characters and the input after the
closing quote. -/
def parseStrBody : List Char → Option (List Char × List Char)
  | [] => none
  | c :: rest =>
    if c = '"' then some ([], rest)
    else if c = '\\' then
      match rest with
      | 'u' :: h1 :: h2 :: h3 :: h4 :: rest2 =>
        match hexVal h1, hexVal h2, hexVal h3, hexVal h4 with
        | some a, some b, some d, some e =>
          match parseStrBody rest2 with
          | some (s, r) =>
            some (Char.ofNat (((a * 16 + b) * 16 + d) * 16 + e) :: s, r)
          | none => none
        | _, _, _, _ => none
      | 'u' :: _ => none
      | e :: rest2 =>
        match jsonUnescChar e with
        | some d =>
          match parseStrBody rest2 with
          | some (s, r) => some (d :: s, r)
          | none => none
        | none => none
      | [] => none
    else if c.toNat < 32 then none
    else
      match parseStrBody rest with
      | some (s, r) => some (c :: s, r)
      | none => none

/-- Longest run of decimal digits. -/
def scanDigits : List Char → (List Char × List Char)
  | [] => ([], [])
  | c :: rest =>
    if c.isDigit then
      let (ds, r) := scanDigits rest
      (c :: ds, r)
    else ([], c :: rest)

/-- The integer part of a JSON number (`0` or a nonzero digit followed
by digits). -/
def parseIntPart : List Char → Option (List Char × List Char)
  | [] => none
  | c :: rest =>
    if c = '0' then some ([c], rest)
    else if c.isDigit then
      let (ds, r) := scanDigits rest
      some (c :: ds, r)
    else none

/-- The optional fraction part (`.` followed by one or more digits). -/
def parseFracPart : List Char → Option (List Char × List Char)
  | '.' :: rest =>
    match scanDigits rest with
    | ([], _) => none
    | (ds, r) => some ('.' :: ds, r)
  | s => some ([], s)

/-- The optional exponent part. -/
def parseExpPart : List Char → Option (List Char × List Char)
  | c :: rest =>
    if c = 'e' ∨ c = 'E' then
      match rest with
      | d :: rest2 =>
        if d = '+' ∨ d = '-' then
          match scanDigits rest2 with
          | ([], _) => none
          | (ds, r) => some (c :: d :: ds, r)
        else
          match scanDigits rest with
          | ([], _) => none
          | (ds, r) => some (c :: ds, r)
      | [] => none
    else some ([], c :: rest)
  | [] => some ([], [])

/-- A JSON numeric literal; returns the literal text and the rest. -/
def parseNumLit (s : List Char) : Option (List Char × List Char) :=
  let (sign, s1) :=
    match s with
    | '-' :: r => ([('-' : Char)], r)
    | _ => (([] : List Char), s)
  match parseIntPart s1 with
  | none => none
  | some (ip, s2) =>
    match parseFracPart s2 with
    | none => none
    | some (fp, s3) =>
      match parseExpPart s3 with
      | none => none
      | some (ep, s4) => some (sign ++ ip ++ fp ++ ep, s4)

mutual

/-- Parse one JSON value (leading whitespace allowed). -/
def parseVal : Nat → List Char → Option (JsVal × List Char)
  | 0, _ => none
  | fuel + 1, s =>
    match skipJsonWs s with
    | [] => none
    | c :: rest =>
      if c = '{' then
        match skipJsonWs rest with
        | '}' :: r2 => some (.obj [], r2)
        | r2 => parseMembers fuel r2 []
      else if c = '[' then
        match skipJsonWs rest with
        | ']' :: r2 => some (.arr [], r2)
        | r2 => parseElems fuel r2 []
      else if c = '"' then
        match parseStrBody rest with
        | some (cs, r2) => some (.str (String.mk cs), r2)
        | none => none
      else if "true".data.isPrefixOf (c :: rest) then
        some (.jsBool true, (c :: rest).drop 4)
      else if "false".data.isPrefixOf (c :: rest) then
        some (.jsBool false, (c :: rest).drop 5)
      else if "null".data.isPrefixOf (c :: rest) then
        some (.jsNull, (c :: rest).drop 4)
      else
        match parseNumLit (c :: rest) with
        | some (lit, r2) => some (.num (String.mk lit), r2)
        | none => none

/-- Parse the members of an object, after at least one is required. -/
def parseMembers : Nat → List Char → List (String × JsVal) →
    Option (JsVal × List Char)
  | 0, _, _ => none
  | fuel + 1, s, acc =>
    match s with
    | '"' :: rest =>
      match parseStrBody rest with
      | some (key, r1) =>
        match skipJsonWs r1 with
        | ':' :: r2 =>
          match parseVal fuel r2 with
          | some (v, r3) =>
            match skipJsonWs r3 with
            | ',' :: r4 =>
              parseMembers fuel (skipJsonWs r4) (acc ++ [(String.mk key, v)])
            | '}' :: r4 => some (.obj (acc ++ [(String.mk key, v)]), r4)
            | _ => none
          | none => none
        | _ => none
      | none => none
    | _ => none

/-- Parse the elements of an array, after at least one is required. -/
def parseElems : Nat → List Char → List JsVal → Option (JsVal × List Char)
  | 0, _, _ => none
  | fuel + 1, s, acc =>
    match parseVal fuel s with
    | some (v, r1) =>
      match skipJsonWs r1 with
      | ',' :: r2 => parseElems fuel r2 (acc ++ [v])
      | ']' :: r2 => some (.arr (acc ++ [v]), r2)
      | _ => none
    | none => none

end

/-- `JSON.parse`: `none` models a thrown `SyntaxError`. -/
def parseJsonText (s : String) : Option JsVal :=
  match parseVal (s.data.length + 1) s.data with
  | some (v, rest) => if skipJsonWs rest = [] then some v else none
  | none => none

/-! ## ECMAScript numeric coercions

`matchRule` applies `String(...)` and `Number(...)` to user-context
attributes and rule values.  A finite double is modelled as an exact
fraction `num / den` (`JsNum`; every finite double is such a fraction);
the source performs no arithmetic on these values, only comparisons and
stringification.  `Number(...)` of a string is modelled for decimal
numeric literals (the `Infinity` words and the hex/octal/binary forms
are outside the model and map to NaN here; no input of this development
uses them). -/

/-- A finite ECMAScript number, as an exact unreduced fraction with a
positive denominator. -/
structure JsNum where
  num : Int
  den : Nat
deriving Repr, DecidableEq

/-- The integer `n` as a `JsNum`. -/
def JsNum.ofInt (n : Int) : JsNum := ⟨n, 1⟩

/-- Numeric equality of two finite numbers. -/
def jsNumEq (a b : JsNum) : Bool :=
  a.num * (b.den : Int) == b.num * (a.den : Int)

/-- Numeric strict order of two finite numbers. -/
def jsNumLt (a b : JsNum) : Bool :=
  a.num * (b.den : Int) < b.num * (a.den : Int)

/-- Numeric non-strict order of two finite numbers. -/
def jsNumLe (a b : JsNum) : Bool :=
  a.num * (b.den : Int) ≤ b.num * (a.den : Int)

/-- `Math.floor` of a finite number. -/
def JsNum.floor (a : JsNum) : Int :=
  Int.fdiv a.num (a.den : Int)

/-- The fraction digits of the decimal expansion of `rem / den`, up to
`fuel` digits (the canonical print of a double needs at most 17
significant digits; 30 is ample for every input of this development). -/
def decimalFracDigits : Nat → Nat → Nat → List Char
  | 0, _, _ => []
  | _, _, 0 => []
  | fuel + 1, rem, den =>
    if rem = 0 then []
    else
      Char.ofNat (48 + (rem * 10) / den) ::
        decimalFracDigits fuel ((rem * 10) % den) den

/-- `String(...)` of a finite number: sign, integer part, and (when the
value is not an integer) the fraction digits. -/
def jsNumToString (a : JsNum) : String :=
  let sign := if a.num < 0 then "-" else ""
  let n := a.num.natAbs
  let whole := n / a.den
  let rem := n % a.den
  if rem = 0 then sign ++ toString whole
  else sign ++ toString whole ++ "." ++
    String.mk (decimalFracDigits 30 rem a.den)

/-- Decimal digits of a natural number list. -/
def digitsToNat (ds : List Char) : Nat :=
  ds.foldl (fun acc c => 10 * acc + (c.toNat - 48)) 0

/-- The optional-exponent tail of a decimal numeric literal: given the
sign and mantissa digits already read, either the rest is empty or a
well-formed exponent. -/
def jsNumFinish (neg : Bool) (ip fp rest : List Char) : Option JsNum :=
  let mantNum : Int := (digitsToNat (ip ++ fp) : Int)
  let mantDen : Nat := 10 ^ fp.length
  let signed : Int → Int := fun n => if neg then -n else n
  match rest with
  | [] => some ⟨signed mantNum, mantDen⟩
  | c :: r3 =>
    if c = 'e' ∨ c = 'E' then
      let (eneg, r4) :=
        match r3 with
        | '+' :: rr => (false, rr)
        | '-' :: rr => (true, rr)
        | _ => (false, r3)
      let (eds, r5) := scanDigits r4
      if eds.isEmpty || ¬ r5.isEmpty then none
      else
        let e := digitsToNat eds
        if eneg then some ⟨signed mantNum, mantDen * 10 ^ e⟩
        else some ⟨signed (mantNum * (10 ^ e : Nat)), mantDen⟩
    else none

/-- `Number(...)` of a string: `none` models NaN. -/
def jsStringToNum (s : String) : Option JsNum :=
  let t := trimL s.data
  if t.isEmpty then some (JsNum.ofInt 0)
  else
    let (neg, t1) :=
      match t with
      | '+' :: r => (false, r)
      | '-' :: r => (true, r)
      | _ => (false, t)
    let (ip, r1) := scanDigits t1
    match r1 with
    | '.' :: rf =>
      let (fp, r2) := scanDigits rf
      if ip.isEmpty && fp.isEmpty then none else jsNumFinish neg ip fp r2
    | _ =>
      if ip.isEmpty then none else jsNumFinish neg ip [] r1

/-! ## Domain data (– Types – section of the source) -/

/-- A chat message (`{ role, content }`); the source coerces nullish
content to `""`, so content is modelled as the coerced string. -/
structure Msg where
  role : String
  content : String
deriving Repr, DecidableEq

/-- `UserContext` (all attributes optional; an absent or `null`
attribute is `none`). -/
structure UserContext where
  email : Option String := none
  plan : Option String := none
  account_age : Option JsNum := none
  seats : Option JsNum := none
  mrr : Option JsNum := none
deriving Repr

/-- The closed set of rule variables. -/
inductive RuleVariable where
  | plan | account_age | seats | mrr | email
deriving Repr, DecidableEq

/-- The closed set of rule operators. -/
inductive RuleOp where
  | eq | ne | gt | lt | ge | le | contains
deriving Repr, DecidableEq

/-- A rule-condition value (`string | number`). -/
inductive CondValue where
  | strv (v : String)
  | numv (v : JsNum)
deriving Repr

/-- `RuleCondition` (`variable` is spelled `varName`). -/
structure RuleCondition where
  varName : RuleVariable
  op : RuleOp
  value : CondValue
deriving Repr

/-- `condition_logic`. -/
inductive RuleLogic where
  | AND | OR
deriving Repr, DecidableEq

/-- A targeting `Rule`. -/
structure Rule where
  id : String
  priority : JsNum
  condition_logic : RuleLogic
  conditions : List RuleCondition
  prompt_addition : String
deriving Repr

/-- The structured `InsightPayload` shape. -/
structure InsightPayload where
  surface_reason : String
  deep_reasons : List String
  sentiment : String
  salvageable : Bool
  key_quote : String
  category : String
  competitor : Option String
  feature_gaps : List String
  usage_duration : Option String
  retention_path : String
  retention_accepted : Bool
deriving Repr, DecidableEq

/-! ## `matchRule` -/

/-- The context attribute named by a rule condition, as the source
reads it (`(ctx as Record<string, unknown>)[c.variable]`). -/
def getVar (ctx : UserContext) : RuleVariable → Option CondValue
  | .email => ctx.email.map CondValue.strv
  | .plan => ctx.plan.map CondValue.strv
  | .account_age => ctx.account_age.map CondValue.numv
  | .seats => ctx.seats.map CondValue.numv
  | .mrr => ctx.mrr.map CondValue.numv

/-- `String(...)` of a condition value. -/
def condString : CondValue → String
  | .strv v => v
  | .numv q => jsNumToString q

/-- `Number(...)` of a condition value (`none` = NaN). -/
def condNum : CondValue → Option JsNum
  | .numv q => some q
  | .strv v => jsStringToNum v

/-- One condition of `matchRule`, as the source evaluates it. -/
def evalCondition (ctx : UserContext) (c : RuleCondition) : Bool :=
  match getVar ctx c.varName with
  | none => false
  | some actual =>
    match c.op with
    | .eq => condString actual == condString c.value
    | .ne => condString actual != condString c.value
    | .gt =>
      match condNum actual, condNum c.value with
      | some x, some y => jsNumLt y x
      | _, _ => false
    | .lt =>
      match condNum actual, condNum c.value with
      | some x, some y => jsNumLt x y
      | _, _ => false
    | .ge =>
      match condNum actual, condNum c.value with
      | some x, some y => jsNumLe y x
      | _, _ => false
    | .le =>
      match condNum actual, condNum c.value with
      | some x, some y => jsNumLe x y
      | _, _ => false
    | .contains =>
      containsSub (jsLower (condString c.value)).data
        (jsLower (condString actual)).data

/-- The per-rule match decision of `matchRule`. -/
def ruleMatched (ctx : UserContext) (r : Rule) : Bool :=
  if r.conditions.isEmpty then false
  else
    match r.condition_logic with
    | .AND => r.conditions.all (evalCondition ctx)
    | .OR => r.conditions.any (evalCondition ctx)

/-- The `for (const rule of rules)` loop of `matchRule`. -/
def matchRuleGo (ctx : UserContext) : List Rule → Option String
  | [] => none
  | r :: rest =>
    if ruleMatched ctx r then some r.prompt_addition else matchRuleGo ctx rest

/-- `matchRule` (lines 149–178 of the source). -/
def matchRule (rules : List Rule) (ctx : Option UserContext) : Option String :=
  match ctx with
  | none => none
  | some c => if rules.isEmpty then none else matchRuleGo c rules

/-! ## `clampExchangeLimit` and `countUserTurns` -/

/-- The image of a value under `Number(...)`: a finite rational, NaN, or
an infinity.  `clampExchangeLimit` receives the stored config value only
through this coercion. -/
inductive NumVal where
  | fin (q : JsNum)
  | nan
  | posInf
  | negInf
deriving Repr

/-- `clampExchangeLimit` (lines 288–295 of the source). -/
def clampExchangeLimit (v : NumVal) (fallback : Int) : Int :=
  match v with
  | .fin q =>
    let rounded := q.floor
    if rounded < 1 then 1
    else if rounded > 20 then 20
    else rounded
  | _ => fallback

/-- The filter predicate of `countUserTurns`. -/
def isCountedUserMsg (m : Msg) : Bool :=
  m.role == "user" && jsLower (jsTrim m.content) != "start"

/-- `countUserTurns` (lines 297–299 of the source). -/
def countUserTurns (messages : List Msg) : Nat :=
  (messages.filter isCountedUserMsg).length

/-! ## SSE helpers -/

/-- Handling of one line of `extractTextFromSSE`. -/
def sseLineText (line : List Char) : String :=
  if "data: ".data.isPrefixOf line then
    match parseJsonText (String.mk (trimL (line.drop 6))) with
    | some parsed =>
      if jsIsStr (jsGet parsed "type") "content_block_delta" &&
          jsIsStr (jsGet (jsGet parsed "delta") "type") "text_delta" then
        jsToString (jsGet (jsGet parsed "delta") "text")
      else ""
    | none => ""
  else ""

/-- `extractTextFromSSE` (lines 303–318 of the source). -/
def extractTextFromSSE (sseText : String) : String :=
  String.join ((splitOnChar '\x0A' sseText.data).map sseLineText)

/-- `parseInsight` (lines 320–328): the regex
`\[INSIGHTS\]\s*([\s\S]*?)\s*\[\/INSIGHTS\]` captures the (JS-trimmed)
text between the first `[INSIGHTS]` and the first `[/INSIGHTS]` after
it, which is then given to `JSON.parse`. -/
def parseInsight (text : String) : Option JsVal :=
  match findFirst "[INSIGHTS]".data text.data with
  | none => none
  | some (_, afterOpen) =>
    match findFirst "[/INSIGHTS]".data afterOpen with
    | none => none
    | some (between, _) => parseJsonText (String.mk (trimL between))

/-- `firstUserMessage` (lines 330–333). -/
def firstUserMessage (messages : List Msg) : String :=
  match messages.find? isCountedUserMsg with
  | some m => jsTrim m.content
  | none => ""

/-- The backwards scan of `lastUserMessage`. -/
def lastUserMessageGo : List Msg → String
  | [] => ""
  | m :: rest =>
    if m.role == "user" then
      let c := jsTrim m.content
      if jsLower c != "start" && c.length > 0 then c else lastUserMessageGo rest
    else lastUserMessageGo rest

/-- `lastUserMessage` (lines 335–344). -/
def lastUserMessage (messages : List Msg) : String :=
  lastUserMessageGo messages.reverse

/-- `buildFallbackInsight` (lines 346–362). -/
def buildFallbackInsight (messages : List Msg) : InsightPayload :=
  let surface :=
    if firstUserMessage messages ≠ "" then firstUserMessage messages
    else "No clear reason provided"
  let keyQuote :=
    if lastUserMessage messages ≠ "" then lastUserMessage messages else surface
  { surface_reason := surface
    deep_reasons := [surface]
    sentiment := "neutral"
    salvageable := false
    key_quote := keyQuote
    category := "other"
    competitor := none
    feature_gaps := []
    usage_duration := none
    retention_path := "offboard_gracefully"
    retention_accepted := false }

/-- `normalizeInsightPayload` (lines 364–380). -/
def normalizeInsightPayload (raw : Option JsVal) (messages : List Msg) :
    InsightPayload :=
  let fallback := buildFallbackInsight messages
  match raw with
  | none => fallback
  | some v =>
    if ¬ jsTruthy v then fallback
    else
      { surface_reason :=
          jsToString (jsCoalesce (jsGet v "surface_reason")
            (.str fallback.surface_reason))
        deep_reasons :=
          match jsGet v "deep_reasons" with
          | .arr xs => xs.map jsToString
          | _ => fallback.deep_reasons
        sentiment :=
          jsToString (jsCoalesce (jsGet v "sentiment") (.str fallback.sentiment))
        salvageable := jsTruthy (jsGet v "salvageable")
        key_quote :=
          jsToString (jsCoalesce (jsGet v "key_quote") (.str fallback.key_quote))
        category :=
          jsToString (jsCoalesce (jsGet v "category") (.str fallback.category))
        competitor :=
          if jsTruthy (jsGet v "competitor") then
            some (jsToString (jsGet v "competitor"))
          else none
        feature_gaps :=
          match jsGet v "feature_gaps" with
          | .arr xs => xs.map jsToString
          | _ => []
        usage_duration :=
          if jsTruthy (jsGet v "usage_duration") then
            some (jsToString (jsGet v "usage_duration"))
          else none
        retention_path :=
          jsToString (jsCoalesce (jsGet v "retention_path")
            (.str fallback.retention_path))
        retention_accepted := jsTruthy (jsGet v "retention_accepted") }

/-! ## `forceFinalTranscript` -/

theorem findFirst_post_length_lt {pat s pre post : List Char} (hp : pat ≠ [])
    (h : findFirst pat s = some (pre, post)) : post.length < s.length := by
  induction s generalizing pre with
  | nil =>
    rw [findFirst] at h
    cases pat with
    | nil => exact absurd rfl hp
    | cons p ps => simp [List.isPrefixOf] at h
  | cons c rest ih =>
    rw [findFirst] at h
    by_cases hpre : pat.isPrefixOf (c :: rest) = true
    · simp only [hpre, if_true] at h
      cases h
      have hlen : 1 ≤ pat.length := by
        cases pat with
        | nil => exact absurd rfl hp
        | cons p ps => simp
      simp [List.length_drop]
      omega
    · simp only [hpre] at h
      simp at h
      cases hf : findFirst pat rest with
      | none => rw [hf] at h; simp at h
      | some pr =>
        rw [hf] at h
        obtain ⟨pre0, post0⟩ := pr
        simp at h
        obtain ⟨h1, h2⟩ := h
        have := @ih pre0 (by rw [hf, h2])
        simp
        omega

/-- The token and block delimiters of the model-output contract. -/
def tokenL : List Char := "[INTERVIEW_COMPLETE]".data

def insOpenL : List Char := "[INSIGHTS]".data

def insCloseL : List Char := "[/INSIGHTS]".data

/-- The scanning loop of the block-removing regex replacement, with a
fuel bound (each step consumes at least the two delimiters, so any fuel
of at least the input length completes the scan). -/
def stripBlocksGo : Nat → List Char → List Char
  | 0, s => s
  | fuel + 1, s =>
    match findFirst insOpenL s with
    | none => s
    | some (pre, afterOpen) =>
      match findFirst insCloseL afterOpen with
      | none => s
      | some (_, afterClose) => pre ++ stripBlocksGo fuel afterClose

/-- `rawText.replace(/\[INSIGHTS\][\s\S]*?\[\/INSIGHTS\]/g, "")`: the
regex removes, left to right, each region from an `[INSIGHTS]` to the
first `[/INSIGHTS]` after it, scanning on after the removed region. -/
def stripBlocks (s : List Char) : List Char :=
  stripBlocksGo (s.length + 1) s

/-- The scanning loop of the token-removing replacement. -/
def stripTokenGo : Nat → List Char → List Char
  | 0, s => s
  | fuel + 1, s =>
    match findFirst tokenL s with
    | none => s
    | some (pre, post) => pre ++ stripTokenGo fuel post

/-- `.replace(/\[INTERVIEW_COMPLETE\]/g, "")`: single left-to-right
pass removing each literal occurrence. -/
def stripToken (s : List Char) : List Char :=
  stripTokenGo (s.length + 1) s

/-- The canned closing sentence of `forceFinalTranscript`. -/
def cannedClose : String :=
  "Thanks for sharing this with us — we appreciate the context and will use it to improve."

/-- The `visibleRaw` value of `forceFinalTranscript`. -/
def forceVisibleRaw (rawText : String) : List Char :=
  trimL (stripToken (stripBlocks rawText.data))

/-- The `visible` value of `forceFinalTranscript`. -/
def forceVisible (rawText : String) : String :=
  let visibleRaw := forceVisibleRaw rawText
  if visibleRaw.contains '?' then cannedClose
  else if visibleRaw.isEmpty then cannedClose
  else String.mk visibleRaw

/-- `JSON.stringify(xs, null, 2)` of a string list, at the nesting depth
used in `forceFinalTranscript`. -/
def jsonListPretty (xs : List String) : String :=
  if xs.isEmpty then "[]"
  else
    "[\n" ++ String.intercalate ",\n" (xs.map (fun e => "    " ++ jsonQuote e)) ++
      "\n  ]"

/-- `JSON.stringify` of `string | null`. -/
def jsonNullable : Option String → String
  | none => "null"
  | some s => jsonQuote s

/-- `JSON.stringify` of a boolean. -/
def jsonOfBool (b : Bool) : String :=
  if b then "true" else "false"

/-- `JSON.stringify(insight, null, 2)`: the payload object is created
with its fields in declaration order, which `JSON.stringify` preserves. -/
def insightToJson (p : InsightPayload) : String :=
  "\x7b\n  \"surface_reason\": " ++ jsonQuote p.surface_reason ++
  ",\n  \"deep_reasons\": " ++ jsonListPretty p.deep_reasons ++
  ",\n  \"sentiment\": " ++ jsonQuote p.sentiment ++
  ",\n  \"salvageable\": " ++ jsonOfBool p.salvageable ++
  ",\n  \"key_quote\": " ++ jsonQuote p.key_quote ++
  ",\n  \"category\": " ++ jsonQuote p.category ++
  ",\n  \"competitor\": " ++ jsonNullable p.competitor ++
  ",\n  \"feature_gaps\": " ++ jsonListPretty p.feature_gaps ++
  ",\n  \"usage_duration\": " ++ jsonNullable p.usage_duration ++
  ",\n  \"retention_path\": " ++ jsonQuote p.retention_path ++
  ",\n  \"retention_accepted\": " ++ jsonOfBool p.retention_accepted ++
  "\n\x7d"

/-- `forceFinalTranscript` (lines 382–399 of the source). -/
def forceFinalTranscript (rawText : String) (messages : List Msg) :
    String × InsightPayload :=
  let insight := normalizeInsightPayload (parseInsight rawText) messages
  let visible := forceVisible rawText
  (visible ++ "\n\n" ++ "[INTERVIEW_COMPLETE]" ++ "\n\n" ++ "[INSIGHTS]\n" ++
    insightToJson insight ++ "\n[/INSIGHTS]", insight)

/-- The byte payload enqueued by `textToAnthropicSSE` (lines 401–412),
as text. -/
def ssePayload (text : String) : String :=
  "data: \x7b\"type\":\"content_block_delta\",\"delta\":\x7b\"type\":\"text_delta\",\"text\":" ++
    jsonQuote text ++ "\x7d\x7d\n\ndata: [DONE]\n\n"

/-! ## Notification dispatcher (`deliverRealtimeNotifications`)

External effects (the endpoint query, each delivery-row insert, each
webhook POST) are environment inputs; the dispatcher returns the ordered
trace of the storage/network operations it performs.  The columns of the
delivery row not recorded in the trace (`payload`, `error_message`,
`http_status`, `duration_ms`, `response_body`) and the request headers
(HMAC signature, static auth header) affect no claim. -/

/-- A `notification_endpoints` table row. -/
structure NotificationEndpoint where
  id : String
  account_id : String
  provider : String
  target_url : String
  signing_secret : String
  auth_header_name : Option String
  auth_header_value : Option String
  event_type : String
  delivery_mode : String
  enabled : Bool
deriving Repr, DecidableEq

/-- The generic webhook event (`buildNotificationEvent`, lines 509–532;
`retention_accepted` is not copied into it). -/
structure NotificationEvent where
  event : String
  account_id : String
  insight_id : Option String
  occurred_at : String
  surface_reason : String
  deep_reasons : List String
  category : String
  salvageable : Bool
  retention_path : String
  key_quote : String
  sentiment : String
  competitor : Option String
  feature_gaps : List String
  usage_duration : Option String
deriving Repr, DecidableEq

/-- `buildNotificationEvent`; `occurred_at` (`new Date().toISOString()`)
is an environment input. -/
def buildNotificationEvent (accountId : String) (insightId : Option String)
    (insight : InsightPayload) (occurredAt : String) : NotificationEvent :=
  { event := "interview_completed"
    account_id := accountId
    insight_id := insightId
    occurred_at := occurredAt
    surface_reason := insight.surface_reason
    deep_reasons := insight.deep_reasons
    category := insight.category
    salvageable := insight.salvageable
    retention_path := insight.retention_path
    key_quote := insight.key_quote
    sentiment := insight.sentiment
    competitor := insight.competitor
    feature_gaps := insight.feature_gaps
    usage_duration := insight.usage_duration }

/-- The flattened Slack payload (`buildSlackPayload`, lines 534–552). -/
structure SlackPayload where
  event : String
  account_id : String
  insight_id : Option String
  occurred_at : String
  surface_reason : String
  deep_reasons : String
  category : String
  salvageable : String
  retention_path : String
  key_quote : String
deriving Repr, DecidableEq

/-- `buildSlackPayload`. -/
def buildSlackPayload (e : NotificationEvent) : SlackPayload :=
  { event := e.event
    account_id := e.account_id
    insight_id := e.insight_id
    occurred_at := e.occurred_at
    surface_reason := if e.surface_reason ≠ "" then e.surface_reason else "N/A"
    deep_reasons :=
      if e.deep_reasons.length > 0 then String.intercalate " | " e.deep_reasons
      else "None provided"
    category := if e.category ≠ "" then e.category else "other"
    salvageable := if e.salvageable then "Yes" else "No"
    retention_path := if e.retention_path ≠ "" then e.retention_path else "N/A"
    key_quote := e.key_quote }

/-- The per-endpoint POST body. -/
inductive DeliveryBody where
  | slack (p : SlackPayload)
  | generic (e : NotificationEvent)
deriving Repr, DecidableEq

/-- Outcome of one webhook POST (environment input). -/
inductive PostOutcome where
  | resp (ok : Bool) (status : Nat) (respBody : String)
  | thrown (msg : String)
deriving Repr

/-- Environment of one dispatcher run. -/
structure DispatchEnv where
  queryOk : Bool
  insertDeliveryId : String → Option String
  postOutcome : String → PostOutcome
  occurredAt : String

/-- The ordered trace of external operations a request performs. -/
inductive TraceEvent where
  | insertPartial (ok : Bool)
  | insertInsight (p : InsightPayload) (ok : Bool)
  | updateInsight (id : String) (p : InsightPayload)
  | forcedCall
  | primaryCall
  | geminiCall
  | insertDelivery (endpointId : String) (status : String) (deliveryBody : DeliveryBody)
      (ok : Bool)
  | postAttempt (endpointId : String)
  | updateDelivery (deliveryId : String) (status : String)
deriving Repr, DecidableEq

/-- The filter the endpoint query applies in the database
(`.eq("account_id", ...).eq("enabled", true)
.eq("event_type", "interview_completed").eq("delivery_mode", "realtime")`). -/
def endpointQueryFilter (accountId : String) (e : NotificationEndpoint) : Bool :=
  e.account_id == accountId && e.enabled &&
    e.event_type == "interview_completed" && e.delivery_mode == "realtime"

/-- The `for (const endpoint of rows)` loop of
`deliverRealtimeNotifications`. -/
def dispatchLoop (env : DispatchEnv) (event : NotificationEvent) :
    List NotificationEndpoint → List TraceEvent
  | [] => []
  | e :: rest =>
    let bodyObject :=
      if e.provider == "slack" then DeliveryBody.slack (buildSlackPayload event)
      else DeliveryBody.generic event
    let seg :=
      match env.insertDeliveryId e.id with
      | none => [TraceEvent.insertDelivery e.id "skipped" bodyObject false]
      | some did =>
        TraceEvent.insertDelivery e.id "skipped" bodyObject true ::
        TraceEvent.postAttempt e.id ::
        (match env.postOutcome e.id with
         | .resp ok _ _ =>
           [TraceEvent.updateDelivery did (if ok then "success" else "failed")]
         | .thrown _ => [TraceEvent.updateDelivery did "failed"])
    seg ++ dispatchLoop env event rest

/-- `deliverRealtimeNotifications` (lines 554–655 of the source). -/
def deliverRealtimeNotifications (env : DispatchEnv)
    (allEndpoints : List NotificationEndpoint) (accountId : String)
    (insightId : Option String) (insight : InsightPayload) : List TraceEvent :=
  if ¬ env.queryOk then []
  else
    let rows := allEndpoints.filter (endpointQueryFilter accountId)
    if rows.isEmpty then []
    else dispatchLoop env (buildNotificationEvent accountId insightId insight env.occurredAt) rows

/-! ## The request handler (`serve`, lines 659–928)

The handler is modelled as a pure function of the request plus an
environment of external outcomes.  Not modelled: the `OPTIONS`
preflight, `req.json()` rejection, and the constant CORS headers (no
claim depends on them); the system-prompt text (it is only sent to the
providers, whose outcomes the environment fixes). -/

/-- A `configs` row, reduced to the columns whose values the handler
branches on; the prompt-only columns (product description, competitors,
plans, retention paths, brand prompt) are omitted. -/
structure ConfigRow where
  min_exchanges : NumVal
  max_exchanges : NumVal
deriving Repr

/-- Outcome of the forced non-streaming Anthropic call: parsed response
JSON on HTTP success, status code otherwise. -/
inductive ForcedOutcome where
  | ok (responseJson : JsVal)
  | httpErr (status : Nat)
deriving Repr

/-- Outcome of the streaming Anthropic call: accumulated SSE text on
HTTP success, status code otherwise. -/
inductive PrimaryOutcome where
  | ok (sse : String)
  | httpErr (status : Nat)
deriving Repr

/-- External environment of one request. -/
structure ServeEnv where
  accountId : Option String
  configRow : Option ConfigRow
  partialInsightId : Option String
  rules : List Rule
  hasAnthropicKey : Bool
  geminiKey : Option String
  forced : ForcedOutcome
  geminiForced : Except String String
  geminiFallback : Except String String
  savedInsightId : Option String
  endpoints : List NotificationEndpoint
  dispatch : DispatchEnv
  primary : PrimaryOutcome

/-- The parsed request body. -/
structure ReqBody where
  messages : List Msg
  userContext : Option UserContext
  insightId : Option String
deriving Repr

/-- Response body: a streamed SSE byte sequence, or a JSON error object
`{"error": msg}`. -/
inductive RespBody where
  | sseStream (raw : String)
  | jsonErr (msg : String)
deriving Repr, DecidableEq

/-- An HTTP response (status, non-CORS headers, body). -/
structure HttpResponse where
  status : Nat
  headers : List (String × String)
  body : RespBody
deriving Repr, DecidableEq

/-- Truthiness of a nullable string (`!insightId`, `if (insightId)`). -/
def optTruthy : Option String → Bool
  | none => false
  | some s => s ≠ ""

def ctJson : String × String := ("Content-Type", "application/json")

def ctSse : String × String := ("Content-Type", "text/event-stream")

/-- The `generatedText` extraction from the forced-call response JSON
(lines 806–812). -/
def extractForcedText (v : JsVal) : String :=
  match jsGet v "content" with
  | .arr xs =>
    String.join
      ((xs.filter (fun c => jsIsStr (jsGet c "type") "text")).map
        (fun c => jsToString (jsCoalesce (jsGet c "text") (.str ""))))
  | _ => ""

/-- `saveInsight` (lines 446–491): update in place when a truthy id is
supplied, insert otherwise; returns the (possibly new) id. -/
def saveInsightTrace (env : ServeEnv) (insight : InsightPayload)
    (existing : Option String) : Option String × List TraceEvent :=
  match existing with
  | some id =>
    if id == "" then
      (env.savedInsightId,
        [TraceEvent.insertInsight insight env.savedInsightId.isSome])
    else (some id, [TraceEvent.updateInsight id insight])
  | none =>
    (env.savedInsightId,
      [TraceEvent.insertInsight insight env.savedInsightId.isSome])

/-- The typed provider-error responses (lines 860–877). -/
def typedProviderError (st : Nat) : HttpResponse :=
  if st == 429 then
    ⟨429, [ctJson], .jsonErr "Rate limits exceeded, please try again later."⟩
  else if st == 402 then
    ⟨402, [ctJson], .jsonErr "Payment required, please add funds."⟩
  else ⟨500, [ctJson], .jsonErr "AI gateway error"⟩

/-- The resolved exchange limits (config build, lines 715–733). -/
def resolvedLimits (env : ServeEnv) : Int × Int :=
  match env.configRow with
  | some row =>
    (clampExchangeLimit row.min_exchanges 3, clampExchangeLimit row.max_exchanges 5)
  | none => (3, 5)

/-- The `max_exchanges` in force after the `min > max` repair
(lines 735–737). -/
def resolvedMaxExchanges (env : ServeEnv) : Int :=
  let limits := resolvedLimits env
  if limits.1 > limits.2 then limits.1 else limits.2

/-- The message list after the empty-list substitution (line 706). -/
def effectiveMessages (body : ReqBody) : List Msg :=
  if body.messages.length > 0 then body.messages else [⟨"user", "start"⟩]

/-- The guard of the partial-insight creation (line 711). -/
def createsPartial (body : ReqBody) : Bool :=
  (countUserTurns (effectiveMessages body) == 0 ||
    countUserTurns (effectiveMessages body) == 1) && ¬ optTruthy body.insightId

/-- The insight id in force after the optional partial creation. -/
def resolvedInsightId (env : ServeEnv) (body : ReqBody) : Option String :=
  if createsPartial body then env.partialInsightId else body.insightId

/-- The request handler `serve` (lines 659–928), returning the response
together with the full-request-lifetime trace of external operations
(including the post-response detached work). -/
def serveHandler (env : ServeEnv) (hasApiKey : Bool) (body : ReqBody) :
    HttpResponse × List TraceEvent :=
  if ¬ hasApiKey then
    (⟨401, [ctJson], .jsonErr "Missing x-api-key header"⟩, [])
  else
    match env.accountId with
    | none => (⟨401, [ctJson], .jsonErr "Invalid API key"⟩, [])
    | some accountId =>
      let messages := effectiveMessages body
      let userTurns := countUserTurns messages
      let insightId := resolvedInsightId env body
      let tr0 :=
        if createsPartial body then
          [TraceEvent.insertPartial env.partialInsightId.isSome]
        else ([] : List TraceEvent)
      let maxEx := resolvedMaxExchanges env
      let _ruleInjection := matchRule env.rules body.userContext
      let hardStop : Bool := (userTurns : Int) ≥ maxEx
      if ¬ env.hasAnthropicKey then
        (⟨500, [ctJson], .jsonErr "ANTHROPIC_API_KEY is not configured"⟩, tr0)
      else if hardStop then
        match env.forced with
        | .httpErr _ =>
          if ¬ optTruthy env.geminiKey then
            (⟨500, [ctJson], .jsonErr "AI gateway error"⟩,
              tr0 ++ [TraceEvent.forcedCall])
          else
            match env.geminiForced with
            | .ok geminiText =>
              let ft := forceFinalTranscript geminiText messages
              let saved := saveInsightTrace env ft.2 insightId
              (⟨200, [ctSse], .sseStream (ssePayload ft.1)⟩,
                tr0 ++ [TraceEvent.forcedCall, TraceEvent.geminiCall] ++ saved.2)
            | .error _ =>
              (⟨500, [ctJson], .jsonErr "AI gateway error"⟩,
                tr0 ++ [TraceEvent.forcedCall, TraceEvent.geminiCall])
        | .ok forcedJson =>
          let ft := forceFinalTranscript (extractForcedText forcedJson) messages
          let saved := saveInsightTrace env ft.2 insightId
          let trNotif :=
            deliverRealtimeNotifications env.dispatch env.endpoints accountId
              saved.1 ft.2
          (⟨200, [ctSse], .sseStream (ssePayload ft.1)⟩,
            tr0 ++ [TraceEvent.forcedCall] ++ saved.2 ++ trNotif)
      else
        match env.primary with
        | .httpErr st =>
          if (st == 429 || st == 402) && optTruthy env.geminiKey then
            match env.geminiFallback with
            | .ok geminiText =>
              let trSave :=
                if containsSub tokenL geminiText.data then
                  (saveInsightTrace env
                    (normalizeInsightPayload (parseInsight geminiText) messages)
                    insightId).2
                else []
              (⟨200, [ctSse], .sseStream (ssePayload geminiText)⟩,
                tr0 ++ [TraceEvent.primaryCall, TraceEvent.geminiCall] ++ trSave)
            | .error _ =>
              (typedProviderError st,
                tr0 ++ [TraceEvent.primaryCall, TraceEvent.geminiCall])
          else (typedProviderError st, tr0 ++ [TraceEvent.primaryCall])
        | .ok sse =>
          let fullText := extractTextFromSSE sse
          let trPost :=
            if containsSub tokenL fullText.data then
              let insight := normalizeInsightPayload (parseInsight fullText) messages
              let saved := saveInsightTrace env insight insightId
              saved.2 ++
                deliverRealtimeNotifications env.dispatch env.endpoints accountId
                  saved.1 insight
            else []
          let hdrs :=
            if optTruthy insightId then [ctSse, ("x-insight-id", insightId.getD "")]
            else [ctSse]
          (⟨200, hdrs, .sseStream sse⟩, tr0 ++ [TraceEvent.primaryCall] ++ trPost)

/-! ## Claim C7 -/

theorem clampExchangeLimit_bounds (v : NumVal) (f : Int) (hf1 : 1 ≤ f)
    (hf2 : f ≤ 20) : 1 ≤ clampExchangeLimit v f ∧ clampExchangeLimit v f ≤ 20 := by
  cases v with
  | fin q =>
    simp only [clampExchangeLimit]
    split
    · omega
    · split <;> omega
  | nan => simp [clampExchangeLimit]; omega
  | posInf => simp [clampExchangeLimit]; omega
  | negInf => simp [clampExchangeLimit]; omega

/-- C7: for every stored config row (any `Number(...)` image of the
stored `min_exchanges`/`max_exchanges` values, including NaN, infinite,
negative or oversized ones, and also the absent-row default), the
resolved limits lie in `[1, 20]`, satisfy `min ≤ max`, and the resolved
max is forced up to the clamped min exactly when the clamped min
exceeds the clamped max. -/
theorem claim_C7_resolved_limits (env : ServeEnv) :
    1 ≤ (resolvedLimits env).1 ∧ (resolvedLimits env).1 ≤ 20 ∧
    1 ≤ resolvedMaxExchanges env ∧ resolvedMaxExchanges env ≤ 20 ∧
    (resolvedLimits env).1 ≤ resolvedMaxExchanges env ∧
    resolvedMaxExchanges env =
      (if (resolvedLimits env).1 > (resolvedLimits env).2 then
        (resolvedLimits env).1
      else (resolvedLimits env).2) := by
  have hmin : 1 ≤ (resolvedLimits env).1 ∧ (resolvedLimits env).1 ≤ 20 := by
    cases h : env.configRow with
    | none => simp [resolvedLimits, h]
    | some row =>
      simp only [resolvedLimits, h]
      exact clampExchangeLimit_bounds _ 3 (by norm_num) (by norm_num)
  have hmax : 1 ≤ (resolvedLimits env).2 ∧ (resolvedLimits env).2 ≤ 20 := by
    cases h : env.configRow with
    | none => simp [resolvedLimits, h]
    | some row =>
      simp only [resolvedLimits, h]
      exact clampExchangeLimit_bounds _ 5 (by norm_num) (by norm_num)
  simp only [resolvedMaxExchanges]
  refine ⟨hmin.1, hmin.2, ?_, ?_, ?_, ?_⟩ <;> first
  | trivial
  | (split <;> omega)

/-! ## Claim C8 -/

/-- C8: the turn count is exactly the number of messages whose role is
`"user"` and whose trimmed, lower-cased content differs from the
sentinel `"start"`; inserting a message of another role, or one whose
trimmed lower-cased content is `"start"`, anywhere never changes it. -/
theorem claim_C8_turn_count (messages : List Msg) :
    countUserTurns messages =
      messages.countP
        (fun m => m.role == "user" && jsLower (jsTrim m.content) != "start") ∧
    (∀ pre suf m, m.role ≠ "user" →
      countUserTurns (pre ++ m :: suf) = countUserTurns (pre ++ suf)) ∧
    (∀ pre suf m, jsLower (jsTrim m.content) = "start" →
      countUserTurns (pre ++ m :: suf) = countUserTurns (pre ++ suf)) := by
  refine ⟨?_, ?_, ?_⟩
  · rw [countUserTurns, ← List.countP_eq_length_filter]
    rfl
  · intro pre suf m hrole
    have hm : isCountedUserMsg m = false := by
      simp [isCountedUserMsg, hrole]
    simp [countUserTurns, List.filter_append, hm]
  · intro pre suf m hstart
    have hm : isCountedUserMsg m = false := by
      simp [isCountedUserMsg, hstart]
    simp [countUserTurns, List.filter_append, hm]

theorem claim_C8_turn_count_witness :
    countUserTurns
        ([⟨"user", "hi"⟩] ++ ⟨"assistant", "hello"⟩ :: [⟨"user", " Start "⟩]) =
      countUserTurns ([⟨"user", "hi"⟩] ++ [⟨"user", " Start "⟩]) ∧
    countUserTurns
        ([⟨"user", "hi"⟩] ++ ⟨"user", " START  "⟩ :: [⟨"user", "bye"⟩]) =
      countUserTurns ([⟨"user", "hi"⟩] ++ [⟨"user", "bye"⟩]) :=
  ⟨(claim_C8_turn_count []).2.1 [⟨"user", "hi"⟩] [⟨"user", " Start "⟩]
      ⟨"assistant", "hello"⟩ (by decide),
    (claim_C8_turn_count []).2.2 [⟨"user", "hi"⟩] [⟨"user", "bye"⟩]
      ⟨"user", " START  "⟩ (by decide)⟩

/-! ## Claim C5 -/

theorem matchRuleGo_eq_some {ctx : UserContext} {rules : List Rule} {t : String}
    (h : matchRuleGo ctx rules = some t) :
    ∃ pre r suf, rules = pre ++ r :: suf ∧ ruleMatched ctx r = true ∧
      t = r.prompt_addition ∧ ∀ r2 ∈ pre, ruleMatched ctx r2 = false := by
  induction rules with
  | nil => simp [matchRuleGo] at h
  | cons r rest ih =>
    rw [matchRuleGo] at h
    by_cases hm : ruleMatched ctx r = true
    · refine ⟨[], r, rest, rfl, hm, ?_, by simp⟩
      rw [if_pos hm] at h
      exact (Option.some.inj h).symm
    · rw [if_neg hm] at h
      obtain ⟨pre, r0, suf, heq, hm0, ht, hpre⟩ := ih h
      refine ⟨r :: pre, r0, suf, by rw [heq, List.cons_append], hm0, ht, ?_⟩
      intro r2 hr2
      rcases List.mem_cons.mp hr2 with h2 | h2
      · rw [h2]; exact eq_false_of_ne_true hm
      · exact hpre r2 h2

theorem matchRuleGo_eq_none {ctx : UserContext} {rules : List Rule}
    (h : matchRuleGo ctx rules = none) :
    ∀ r ∈ rules, ruleMatched ctx r = false := by
  induction rules with
  | nil => simp
  | cons r rest ih =>
    rw [matchRuleGo] at h
    by_cases hm : ruleMatched ctx r = true
    · rw [if_pos hm] at h; exact absurd h (by simp)
    · rw [if_neg hm] at h
      intro r2 hr2
      rcases List.mem_cons.mp hr2 with h2 | h2
      · rw [h2]; exact eq_false_of_ne_true hm
      · exact ih h r2 h2

/-- C5 (amended): `==`/`!=` compare the stringified values (not the
numeric coercions); the four inequalities use numeric coercion and
`contains` is a case-insensitive substring test, as `evalCondition`
defines.  With that reading: on a rule list sorted ascending by
priority, `matchRule` returns the prompt addition of the first matching
rule — a rule of minimal priority among the matching ones — and `none`
exactly when no rule matches; a rule with an empty condition list never
matches, and a missing user context matches nothing. -/
theorem claim_C5_amended (rules : List Rule) (ctx : UserContext)
    (hsorted : rules.Pairwise (fun a b => jsNumLe a.priority b.priority = true)) :
    (∀ t, matchRule rules (some ctx) = some t →
      ∃ pre r suf, rules = pre ++ r :: suf ∧ ruleMatched ctx r = true ∧
        t = r.prompt_addition ∧ (∀ r2 ∈ pre, ruleMatched ctx r2 = false) ∧
        (∀ r2 ∈ rules, ruleMatched ctx r2 = true →
          jsNumLe r.priority r2.priority = true)) ∧
    (matchRule rules (some ctx) = none → ∀ r ∈ rules, ruleMatched ctx r = false) ∧
    (∀ r : Rule, r.conditions = [] → ruleMatched ctx r = false) ∧
    matchRule rules (none : Option UserContext) = none := by
  refine ⟨?_, ?_, ?_, rfl⟩
  · intro t h
    rw [matchRule] at h
    by_cases he : rules.isEmpty
    · rw [if_pos he] at h; exact absurd h (by simp)
    · rw [if_neg he] at h
      obtain ⟨pre, r, suf, heq, hm, ht, hpre⟩ := matchRuleGo_eq_some h
      refine ⟨pre, r, suf, heq, hm, ht, hpre, ?_⟩
      intro r2 hr2 hm2
      rw [heq] at hr2 hsorted
      rcases List.mem_append.mp hr2 with h2 | h2
      · exact absurd hm2 (by rw [hpre r2 h2]; simp)
      · rcases List.mem_cons.mp h2 with h3 | h3
        · rw [h3]; simp [jsNumLe]
        · exact (List.pairwise_cons.mp
            (List.pairwise_append.mp hsorted).2.1).1 r2 h3
  · intro h
    rw [matchRule] at h
    by_cases he : rules.isEmpty
    · intro r hr
      rw [List.isEmpty_iff.mp he] at hr
      exact absurd hr (by simp)
    · rw [if_neg he] at h
      exact matchRuleGo_eq_none h
  · intro r hr
    simp [ruleMatched, hr]

theorem claim_C5_amended_witness :
    matchRule [⟨"a", JsNum.ofInt 1, .AND, [⟨.plan, .eq, .strv "pro"⟩], "A"⟩]
      (none : Option UserContext) = none :=
  (claim_C5_amended [⟨"a", JsNum.ofInt 1, .AND, [⟨.plan, .eq, .strv "pro"⟩], "A"⟩]
    {plan := some "basic"} (by simp)).2.2.2

/-- C5 (counterexample): the claim evaluates `==` under numeric
coercion.  With `mrr = 500` and the condition `mrr == "500.0"`, the
numeric coercions of the two sides agree (both are 500), so under the
claim the single AND condition is satisfied and the rule's text must be
returned; the code compares `String(500) = "500"` with `"500.0"` and
returns no match. -/
theorem claim_C5_counterexample :
    (match condNum (CondValue.numv (JsNum.ofInt 500)),
        condNum (CondValue.strv "500.0") with
      | some x, some y => jsNumEq x y
      | _, _ => false) = true ∧
    matchRule
      [⟨"r1", JsNum.ofInt 1, .AND, [⟨.mrr, .eq, .strv "500.0"⟩], "VIP"⟩]
      (some {mrr := some (JsNum.ofInt 500)}) = none :=
  ⟨by decide, by decide⟩

/-! ## Claim C4 -/

/-- C4 (counterexample): the claim says a missing list field becomes an
empty list.  For model output whose block parses but lacks
`deep_reasons`, the normalized record's `deep_reasons` is the fallback
one-element list `[first substantive user message]`, not `[]`. -/
theorem claim_C4_counterexample :
    (normalizeInsightPayload
        (parseInsight "x [INSIGHTS]\x7b\"sentiment\": \"negative\"\x7d[/INSIGHTS]")
        [⟨"user", "too expensive"⟩]).deep_reasons = ["too expensive"] ∧
    (["too expensive"] : List String) ≠ [] :=
  ⟨by decide, by decide⟩

/-- C4 (amended): the extractor never yields a null required field —
missing booleans become `false`, missing strings take the fallback
value, a missing `feature_gaps` becomes the empty list, but a missing
`deep_reasons` takes the fallback one-element list (the fallback
surface reason); on absence or unparseability of the block, or a falsy
parse result, it returns the fallback record with
`surface_reason` = first substantive user message, `key_quote` = last
substantive user message, `category = "other"` and
`retention_path = "offboard_gracefully"` (the stated derivation of the
two message-based fields presupposing such messages exist). -/
theorem claim_C4_amended (raw : String) (messages : List Msg)
    (hfirst : firstUserMessage messages ≠ "")
    (hlast : lastUserMessage messages ≠ "") :
    (buildFallbackInsight messages).surface_reason = firstUserMessage messages ∧
    (buildFallbackInsight messages).key_quote = lastUserMessage messages ∧
    (buildFallbackInsight messages).category = "other" ∧
    (buildFallbackInsight messages).retention_path = "offboard_gracefully" ∧
    (buildFallbackInsight messages).deep_reasons = [firstUserMessage messages] ∧
    (buildFallbackInsight messages).feature_gaps = [] ∧
    (buildFallbackInsight messages).salvageable = false ∧
    (buildFallbackInsight messages).retention_accepted = false ∧
    (buildFallbackInsight messages).competitor = none ∧
    (buildFallbackInsight messages).usage_duration = none ∧
    (buildFallbackInsight messages).sentiment = "neutral" ∧
    (parseInsight raw = none →
      normalizeInsightPayload (parseInsight raw) messages =
        buildFallbackInsight messages) ∧
    (∀ v, jsTruthy v = false →
      normalizeInsightPayload (some v) messages = buildFallbackInsight messages) ∧
    (∀ v, jsTruthy v = true →
      (jsNullish (jsGet v "surface_reason") = true →
        (normalizeInsightPayload (some v) messages).surface_reason =
          firstUserMessage messages) ∧
      (jsIsArray (jsGet v "deep_reasons") = false →
        (normalizeInsightPayload (some v) messages).deep_reasons =
          [firstUserMessage messages]) ∧
      (jsIsArray (jsGet v "feature_gaps") = false →
        (normalizeInsightPayload (some v) messages).feature_gaps = []) ∧
      (jsGet v "salvageable" = .undefinedV →
        (normalizeInsightPayload (some v) messages).salvageable = false) ∧
      (jsGet v "retention_accepted" = .undefinedV →
        (normalizeInsightPayload (some v) messages).retention_accepted = false) ∧
      (jsNullish (jsGet v "sentiment") = true →
        (normalizeInsightPayload (some v) messages).sentiment = "neutral") ∧
      (jsNullish (jsGet v "key_quote") = true →
        (normalizeInsightPayload (some v) messages).key_quote =
          lastUserMessage messages) ∧
      (jsNullish (jsGet v "category") = true →
        (normalizeInsightPayload (some v) messages).category = "other") ∧
      (jsNullish (jsGet v "retention_path") = true →
        (normalizeInsightPayload (some v) messages).retention_path =
          "offboard_gracefully") ∧
      (jsNullish (jsGet v "competitor") = true →
        (normalizeInsightPayload (some v) messages).competitor = none) ∧
      (jsNullish (jsGet v "usage_duration") = true →
        (normalizeInsightPayload (some v) messages).usage_duration = none)) := by
  have hfb1 : (buildFallbackInsight messages).surface_reason =
      firstUserMessage messages := by
    simp [buildFallbackInsight, hfirst]
  have hfb2 : (buildFallbackInsight messages).key_quote =
      lastUserMessage messages := by
    simp [buildFallbackInsight, hlast]
  have hfb5 : (buildFallbackInsight messages).deep_reasons =
      [firstUserMessage messages] := by
    simp [buildFallbackInsight, hfirst]
  refine ⟨hfb1, hfb2, rfl, rfl, hfb5, rfl, rfl, rfl, rfl, rfl, rfl, ?_, ?_, ?_⟩
  · intro h
    rw [h, normalizeInsightPayload]
  · intro v hv
    rw [normalizeInsightPayload]
    simp [hv]
  · intro v hv
    refine ⟨?_, ?_, ?_, ?_, ?_, ?_, ?_, ?_, ?_, ?_, ?_⟩ <;>
      intro hfield <;> simp only [normalizeInsightPayload, hv, Bool.not_true,
        Bool.false_eq_true, if_false]
    · simp [jsCoalesce, hfield, hfb1, jsToString]
    · rcases hget : jsGet v "deep_reasons" with _ | _ | b | lit | s | xs | fs <;>
        simp only [hget] <;> first
      | exact hfb5
      | (exfalso; rw [hget] at hfield; simp [jsIsArray] at hfield)
    · rcases hget : jsGet v "feature_gaps" with _ | _ | b | lit | s | xs | fs <;>
        simp only [hget] <;> first
      | rfl
      | (exfalso; rw [hget] at hfield; simp [jsIsArray] at hfield)
    · simp [hfield, jsTruthy]
    · simp [hfield, jsTruthy]
    · simp [jsCoalesce, hfield, jsToString, buildFallbackInsight]
    · simp [jsCoalesce, hfield, hfb2, jsToString]
    · simp [jsCoalesce, hfield, jsToString, buildFallbackInsight]
    · simp [jsCoalesce, hfield, jsToString, buildFallbackInsight]
    · have hct : jsTruthy (jsGet v "competitor") = false := by
        rcases hget : jsGet v "competitor" with _ | _ | b | lit | s | xs | fs <;>
          rw [hget] at hfield <;> simp [jsNullish] at hfield <;> simp [jsTruthy]
      simp [hct]
    · have hud : jsTruthy (jsGet v "usage_duration") = false := by
        rcases hget : jsGet v "usage_duration" with _ | _ | b | lit | s | xs | fs <;>
          rw [hget] at hfield <;> simp [jsNullish] at hfield <;> simp [jsTruthy]
      simp [hud]

theorem claim_C4_amended_witness :
    normalizeInsightPayload (parseInsight "no block here")
        [⟨"user", "a"⟩, ⟨"user", "b"⟩] =
      buildFallbackInsight [⟨"user", "a"⟩, ⟨"user", "b"⟩] :=
  ((claim_C4_amended "no block here" [⟨"user", "a"⟩, ⟨"user", "b"⟩]
    (by decide) (by decide)).2.2.2.2.2.2.2.2.2.2.2.1) rfl

/-! ## Claim C2 -/

/-- Occurrence count over the final-transcript shape
`visible \n\n [INTERVIEW_COMPLETE] \n\n [INSIGHTS]\n json \n[/INSIGHTS]`,
for any pattern free of newlines. -/
theorem countSub_finalShape {pat V J : List Char} (hpat : pat ≠ [])
    (hnl : '\n' ∉ pat) :
    countSub pat
        (V ++ '\n' :: '\n' ::
          (tokenL ++ '\n' :: '\n' ::
            (insOpenL ++ '\n' :: (J ++ '\n' :: insCloseL)))) =
      countSub pat V + countSub pat tokenL + countSub pat insOpenL +
        countSub pat J + countSub pat insCloseL := by
  rw [countSub_append_sep hpat hnl]
  rw [show ('\n' :: (tokenL ++ '\n' :: '\n' ::
      (insOpenL ++ '\n' :: (J ++ '\n' :: insCloseL)))) =
    (([] : List Char) ++ '\n' :: (tokenL ++ '\n' :: '\n' ::
      (insOpenL ++ '\n' :: (J ++ '\n' :: insCloseL)))) from rfl]
  rw [countSub_append_sep hpat hnl, countSub_nil pat hpat]
  rw [countSub_append_sep hpat hnl]
  rw [show ('\n' :: (insOpenL ++ '\n' :: (J ++ '\n' :: insCloseL))) =
    (([] : List Char) ++ '\n' :: (insOpenL ++ '\n' :: (J ++ '\n' :: insCloseL)))
    from rfl]
  rw [countSub_append_sep hpat hnl, countSub_nil pat hpat]
  rw [countSub_append_sep hpat hnl, countSub_append_sep hpat hnl]
  omega

/-- The visible part of a forced transcript never contains a question
mark. -/
theorem forceVisible_no_qmark (raw : String) : '?' ∉ (forceVisible raw).data := by
  rw [forceVisible]
  by_cases hq : (forceVisibleRaw raw).contains '?' = true
  · rw [if_pos hq]; decide
  · rw [if_neg hq]
    by_cases he : (forceVisibleRaw raw).isEmpty = true
    · rw [if_pos he]; decide
    · rw [if_neg he]
      intro hmem
      exact hq (List.elem_eq_true_of_mem hmem)

/-- The final transcript decomposes into the visible part, the
completion token, and the structured block around the serialized
insight. -/
theorem forceFinalTranscript_data (raw : String) (messages : List Msg) :
    (forceFinalTranscript raw messages).1.data =
      (forceVisible raw).data ++ '\n' :: '\n' ::
        (tokenL ++ '\n' :: '\n' ::
          (insOpenL ++ '\n' ::
            ((insightToJson (forceFinalTranscript raw messages).2).data ++
              '\n' :: insCloseL))) := by
  simp only [forceFinalTranscript, String.data_append]
  simp [tokenL, insOpenL, insCloseL, List.append_assoc]

/-- C2 (amended): whenever the single-pass marker stripping leaves a
visible remainder free of residual markers, and the serialized insight
contains no marker text, the forced final transcript contains the
completion token exactly once, followed by exactly one
`[INSIGHTS]`…`[/INSIGHTS]` block, and the visible (pre-block) portion
contains no question mark.  (The marker-freedom hypotheses are forced:
overlapping marker fragments in the raw text, or marker text inside the
messages echoed into the insight, reproduce markers in the output.) -/
theorem claim_C2_amended (raw : String) (messages : List Msg)
    (hV1 : countSub tokenL (forceVisible raw).data = 0)
    (hV2 : countSub insOpenL (forceVisible raw).data = 0)
    (hV3 : countSub insCloseL (forceVisible raw).data = 0)
    (hJ1 : countSub tokenL
      (insightToJson (forceFinalTranscript raw messages).2).data = 0)
    (hJ2 : countSub insOpenL
      (insightToJson (forceFinalTranscript raw messages).2).data = 0)
    (hJ3 : countSub insCloseL
      (insightToJson (forceFinalTranscript raw messages).2).data = 0) :
    countSub tokenL (forceFinalTranscript raw messages).1.data = 1 ∧
    countSub insOpenL (forceFinalTranscript raw messages).1.data = 1 ∧
    countSub insCloseL (forceFinalTranscript raw messages).1.data = 1 ∧
    (forceFinalTranscript raw messages).1.data =
      (forceVisible raw).data ++ '\n' :: '\n' ::
        (tokenL ++ '\n' :: '\n' ::
          (insOpenL ++ '\n' ::
            ((insightToJson (forceFinalTranscript raw messages).2).data ++
              '\n' :: insCloseL))) ∧
    '?' ∉ (forceVisible raw).data := by
  have hdata := forceFinalTranscript_data raw messages
  refine ⟨?_, ?_, ?_, hdata, forceVisible_no_qmark raw⟩
  · rw [hdata, countSub_finalShape (by decide) (by decide), hV1, hJ1]
    decide
  · rw [hdata, countSub_finalShape (by decide) (by decide), hV2, hJ2]
    decide
  · rw [hdata, countSub_finalShape (by decide) (by decide), hV3, hJ3]
    decide

/-- C2 (counterexample): splicing the completion token into itself
survives the single-pass removal, so the returned transcript contains
the token twice, refuting "exactly once". -/
theorem claim_C2_counterexample :
    countSub tokenL
        (forceFinalTranscript "[INTERVIEW[INTERVIEW_COMPLETE]_COMPLETE]" []).1.data
      = 2 := by
  decide

theorem claim_C2_amended_witness :
    countSub tokenL
        (forceFinalTranscript
          "Thanks for everything. [INTERVIEW_COMPLETE] [INSIGHTS]\x7b\"salvageable\": true\x7d[/INSIGHTS]"
          [⟨"user", "hi"⟩]).1.data = 1 :=
  (claim_C2_amended
    "Thanks for everything. [INTERVIEW_COMPLETE] [INSIGHTS]\x7b\"salvageable\": true\x7d[/INSIGHTS]"
    [⟨"user", "hi"⟩] (by decide) (by decide) (by decide) (by decide) (by decide)
    (by decide)).1

/-! ## Claim C6 -/

/-- Endpoint id and status of a successful delivery-row insert. -/
def insertEventId : TraceEvent → Option (String × String)
  | .insertDelivery eid st _ true => some (eid, st)
  | _ => none

/-- Endpoint id of a POST attempt. -/
def postEventId : TraceEvent → Option String
  | .postAttempt eid => some eid
  | _ => none

theorem dispatchLoop_trace (env : DispatchEnv) (event : NotificationEvent)
    (rows : List NotificationEndpoint)
    (hins : ∀ e ∈ rows, (env.insertDeliveryId e.id).isSome = true) :
    (dispatchLoop env event rows).filterMap insertEventId =
        rows.map (fun e => (e.id, "skipped")) ∧
    (dispatchLoop env event rows).filterMap postEventId =
        rows.map (fun e => e.id) ∧
    ∀ xs ys eid, dispatchLoop env event rows =
        xs ++ TraceEvent.postAttempt eid :: ys →
      ∃ b, TraceEvent.insertDelivery eid "skipped" b true ∈ xs := by
  induction rows with
  | nil =>
    refine ⟨rfl, rfl, ?_⟩
    intro xs ys eid h
    rw [dispatchLoop] at h
    exact absurd h.symm (by simp)
  | cons e rest ih =>
    have hid := hins e (List.mem_cons_self e rest)
    obtain ⟨did, hdid⟩ := Option.isSome_iff_exists.mp hid
    have hrest := ih (fun e2 h2 => hins e2 (List.mem_cons_of_mem e h2))
    obtain ⟨ih1, ih2, ih3⟩ := hrest
    set bodyObject :=
      (if e.provider == "slack" then DeliveryBody.slack (buildSlackPayload event)
        else DeliveryBody.generic event) with hbody
    have hex : ∃ st, dispatchLoop env event (e :: rest) =
        TraceEvent.insertDelivery e.id "skipped" bodyObject true ::
        TraceEvent.postAttempt e.id ::
        TraceEvent.updateDelivery did st :: dispatchLoop env event rest := by
      rcases hpo : env.postOutcome e.id with ⟨ok, st0, b0⟩ | m
      · refine ⟨if ok then "success" else "failed", ?_⟩
        rw [dispatchLoop, hdid, hpo]
        rfl
      · refine ⟨"failed", ?_⟩
        rw [dispatchLoop, hdid, hpo]
        rfl
    obtain ⟨st, hloop⟩ := hex
    refine ⟨?_, ?_, ?_⟩
    · rw [hloop]
      simp only [List.filterMap_cons, insertEventId, List.map_cons]
      rw [ih1]
    · rw [hloop]
      simp only [List.filterMap_cons, postEventId, List.map_cons]
      rw [ih2]
    · intro xs ys eid h
      rw [hloop] at h
      match xs, h with
      | [], h => simp at h
      | [a], h =>
        simp only [List.cons_append, List.nil_append, List.cons.injEq] at h
        obtain ⟨h1, h2, h3⟩ := h
        have heid : e.id = eid := by injection h2
        refine ⟨bodyObject, ?_⟩
        rw [← heid]
        exact List.mem_singleton.mpr h1
      | [a, b], h =>
        simp only [List.cons_append, List.nil_append, List.cons.injEq] at h
        exact absurd h.2.2.1 (by simp)
      | a :: b :: c :: xs3, h =>
        simp only [List.cons_append, List.cons.injEq] at h
        obtain ⟨bb, hbb⟩ := ih3 xs3 ys eid h.2.2.2
        exact ⟨bb, List.mem_cons_of_mem _ (List.mem_cons_of_mem _
          (List.mem_cons_of_mem _ hbb))⟩

/-- C6: with the endpoint query succeeding and the delivery-row inserts
accepted by the store, the dispatcher writes exactly one "skipped"
delivery row per enabled realtime `interview_completed` endpoint of the
account — none for any other endpoint — and attempts exactly one POST
per such endpoint, each POST preceded in the operation order by that
endpoint's "skipped" row, for every network outcome. -/
theorem claim_C6_delivery_rows (allEndpoints : List NotificationEndpoint)
    (accountId : String) (insightId : Option String) (insight : InsightPayload)
    (denv : DispatchEnv) (hq : denv.queryOk = true)
    (hins : ∀ e ∈ allEndpoints.filter (endpointQueryFilter accountId),
      (denv.insertDeliveryId e.id).isSome = true) :
    (deliverRealtimeNotifications denv allEndpoints accountId insightId
        insight).filterMap insertEventId =
      (allEndpoints.filter (endpointQueryFilter accountId)).map
        (fun e => (e.id, "skipped")) ∧
    (deliverRealtimeNotifications denv allEndpoints accountId insightId
        insight).filterMap postEventId =
      (allEndpoints.filter (endpointQueryFilter accountId)).map
        (fun e => e.id) ∧
    ∀ xs ys eid,
      deliverRealtimeNotifications denv allEndpoints accountId insightId
          insight = xs ++ TraceEvent.postAttempt eid :: ys →
      ∃ b, TraceEvent.insertDelivery eid "skipped" b true ∈ xs := by
  rw [deliverRealtimeNotifications, hq]
  simp only [not_true_eq_false, if_false]
  by_cases hrows : (allEndpoints.filter (endpointQueryFilter accountId)).isEmpty
  · rw [if_pos hrows]
    rw [List.isEmpty_iff.mp hrows]
    refine ⟨rfl, rfl, ?_⟩
    intro xs ys eid h
    exact absurd h.symm (by simp)
  · rw [if_neg hrows]
    exact dispatchLoop_trace denv _ _ hins

theorem claim_C6_delivery_rows_witness :
    (deliverRealtimeNotifications
        ⟨true, fun _ => some "d1", fun _ => PostOutcome.thrown "timeout",
          "2026-01-01T00:00:00.000Z"⟩
        [⟨"e1", "acct", "webhook", "https://a.example/h", "", none, none,
          "interview_completed", "realtime", true⟩,
          ⟨"e2", "acct", "slack", "https://b.example/h", "s", none, none,
          "interview_completed", "daily", true⟩]
        "acct" (some "ins1")
        (buildFallbackInsight [⟨"user", "pricing"⟩])).filterMap insertEventId =
      [("e1", "skipped")] :=
  (claim_C6_delivery_rows _ "acct" (some "ins1")
    (buildFallbackInsight [⟨"user", "pricing"⟩])
    ⟨true, fun _ => some "d1", fun _ => PostOutcome.thrown "timeout",
      "2026-01-01T00:00:00.000Z"⟩
    rfl (by decide)).1

/-! ## Claims C1, C3, C9 (handler paths) -/

/-- Insight finalization writes (insert or in-place update). -/
def isFinalizeEvent : TraceEvent → Bool
  | .insertInsight _ _ => true
  | .updateInsight _ _ => true
  | _ => false

/-- Delivery-log writes and webhook POSTs. -/
def isDeliveryEvent : TraceEvent → Bool
  | .insertDelivery _ _ _ _ => true
  | .updateDelivery _ _ => true
  | .postAttempt _ => true
  | _ => false

/-- Partial-insight creation writes. -/
def isPartialInsertEvent : TraceEvent → Bool
  | .insertPartial _ => true
  | _ => false

/-- Secondary-provider (Gemini) call attempts. -/
def isGeminiCallEvent : TraceEvent → Bool
  | .geminiCall => true
  | _ => false

/-- C1 (amended): on the hard-stop path the handler returns a
successful synthesized stream when the forced call succeeds, or when it
fails and the configured secondary fallback succeeds; the returned
stream always carries a `forceFinalTranscript` transcript.  (When the
forced call fails and the secondary is unconfigured or also fails, the
handler returns a 500 error response instead — the synthesized closing
message is not produced under total backend failure.) -/
theorem claim_C1_amended (env : ServeEnv) (body : ReqBody) (accountId : String)
    (hacct : env.accountId = some accountId)
    (hkey : env.hasAnthropicKey = true)
    (hhard : (countUserTurns (effectiveMessages body) : Int) ≥
      resolvedMaxExchanges env)
    (hprov : (∃ j, env.forced = ForcedOutcome.ok j) ∨
      (optTruthy env.geminiKey = true ∧
        ∃ t, env.geminiForced = Except.ok t)) :
    ∃ src, (serveHandler env true body).1 =
      ⟨200, [ctSse], RespBody.sseStream (ssePayload
        (forceFinalTranscript src (effectiveMessages body)).1)⟩ := by
  rcases hprov with ⟨j, hj⟩ | ⟨hg, t, ht⟩
  · refine ⟨extractForcedText j, ?_⟩
    simp [serveHandler, hacct, hkey, hj, hhard]
  · rcases hf : env.forced with j | st
    · exact ⟨extractForcedText j,
        by simp [serveHandler, hacct, hkey, hf, hhard]⟩
    · exact ⟨t, by simp [serveHandler, hacct, hkey, hf, ht, hg, hhard]⟩

theorem claim_C1_amended_witness :
    ∃ src, (serveHandler
      ⟨some "acct", some ⟨NumVal.fin (JsNum.ofInt 1), NumVal.fin (JsNum.ofInt 1)⟩,
        some "p1", [], true, some "gk", ForcedOutcome.httpErr 500,
        Except.ok "All done. [INTERVIEW_COMPLETE]", Except.error "down",
        some "i1", [],
        ⟨true, fun _ => none, fun _ => PostOutcome.thrown "x", "t0"⟩,
        PrimaryOutcome.httpErr 500⟩
      true ⟨[⟨"user", "goodbye"⟩], none, none⟩).1 =
      ⟨200, [ctSse], RespBody.sseStream (ssePayload
        (forceFinalTranscript src
          (effectiveMessages ⟨[⟨"user", "goodbye"⟩], none, none⟩)).1)⟩ :=
  claim_C1_amended _ _ "acct" rfl rfl (by decide)
    (Or.inr ⟨rfl, "All done. [INTERVIEW_COMPLETE]", rfl⟩)

/-- C1 (counterexample): on the hard-stop path with the forced call
failing and the secondary fallback also failing, the handler returns a
500 JSON error — the caller is left without a completion, refuting the
claim that an error response is never returned. -/
theorem claim_C1_counterexample :
    (serveHandler
      ⟨some "acct", some ⟨NumVal.fin (JsNum.ofInt 1), NumVal.fin (JsNum.ofInt 1)⟩,
        some "p1", [], true, some "gk", ForcedOutcome.httpErr 500,
        Except.error "boom", Except.error "boom", some "i1", [],
        ⟨true, fun _ => none, fun _ => PostOutcome.thrown "x", "t0"⟩,
        PrimaryOutcome.httpErr 500⟩
      true ⟨[⟨"user", "goodbye"⟩], none, none⟩).1 =
    ⟨500, [ctJson], RespBody.jsonErr "AI gateway error"⟩ := by
  decide

/-- C3 (amended): below the hard stop, a primary 429/402 triggers
exactly one secondary attempt when the fallback key is configured, and
none otherwise; if that attempt also fails (or cannot be made) the
typed 429/402 error is returned, no insight is finalized and no
delivery is dispatched by the request — but the partial-insight row
created earlier in the same request (turns ≤ 1 without a supplied id)
remains persisted. -/
theorem claim_C3_amended (env : ServeEnv) (body : ReqBody) (accountId : String)
    (st : Nat) (hacct : env.accountId = some accountId)
    (hkey : env.hasAnthropicKey = true)
    (hsoft : ¬ ((countUserTurns (effectiveMessages body) : Int) ≥
      resolvedMaxExchanges env))
    (hst : st = 429 ∨ st = 402)
    (hprim : env.primary = PrimaryOutcome.httpErr st)
    (hfail : optTruthy env.geminiKey = false ∨
      ∃ m, env.geminiFallback = Except.error m) :
    (serveHandler env true body).1 = typedProviderError st ∧
    (serveHandler env true body).1.status = st ∧
    ((serveHandler env true body).2.countP isGeminiCallEvent =
      if optTruthy env.geminiKey then 1 else 0) ∧
    (serveHandler env true body).2.filter isFinalizeEvent = [] ∧
    (serveHandler env true body).2.filter isDeliveryEvent = [] ∧
    ((serveHandler env true body).2.filter isPartialInsertEvent =
      if createsPartial body then
        [TraceEvent.insertPartial env.partialInsightId.isSome]
      else []) := by
  have hst429 : (st == 429 || st == 402) = true := by
    rcases hst with rfl | rfl <;> decide
  have hstatus : (typedProviderError st).status = st := by
    rcases hst with rfl | rfl <;> rfl
  have htr0 : ∀ p : TraceEvent → Bool,
      (if createsPartial body then
        [TraceEvent.insertPartial env.partialInsightId.isSome]
      else ([] : List TraceEvent)).filter p =
      (if p (TraceEvent.insertPartial env.partialInsightId.isSome) then
        (if createsPartial body then
          [TraceEvent.insertPartial env.partialInsightId.isSome]
        else ([] : List TraceEvent))
      else []) := by
    intro p
    by_cases hcp : createsPartial body <;>
      by_cases hp : p (TraceEvent.insertPartial env.partialInsightId.isSome) <;>
      simp [hcp, hp, List.filter]
  by_cases hg : optTruthy env.geminiKey = true
  · have hm : ∃ m, env.geminiFallback = Except.error m := by
      rcases hfail with hbad | hm
      · rw [hg] at hbad; exact absurd hbad (by simp)
      · exact hm
    obtain ⟨m, hm⟩ := hm
    have hred : serveHandler env true body =
        (typedProviderError st,
          (if createsPartial body then
            [TraceEvent.insertPartial env.partialInsightId.isSome]
          else []) ++ [TraceEvent.primaryCall, TraceEvent.geminiCall]) := by
      simp [serveHandler, hacct, hkey, hprim, hsoft, hst429, hg, hm]
    rw [hred]
    refine ⟨rfl, hstatus, ?_, ?_, ?_, ?_⟩ <;>
      simp [List.countP_append, List.filter_append, htr0, hg] <;>
      by_cases hcp : createsPartial body <;>
      simp [hcp, isGeminiCallEvent, isFinalizeEvent, isDeliveryEvent,
        isPartialInsertEvent, List.countP, List.countP.go, List.filter]
  · have hgf : optTruthy env.geminiKey = false := by
      revert hg; cases optTruthy env.geminiKey <;> simp
    have hred : serveHandler env true body =
        (typedProviderError st,
          (if createsPartial body then
            [TraceEvent.insertPartial env.partialInsightId.isSome]
          else []) ++ [TraceEvent.primaryCall]) := by
      simp [serveHandler, hacct, hkey, hprim, hsoft, hst429, hgf]
    rw [hred]
    refine ⟨rfl, hstatus, ?_, ?_, ?_, ?_⟩ <;>
      simp [List.countP_append, List.filter_append, htr0, hgf] <;>
      by_cases hcp : createsPartial body <;>
      simp [hcp, isGeminiCallEvent, isFinalizeEvent, isDeliveryEvent,
        isPartialInsertEvent, List.countP, List.countP.go, List.filter]

theorem claim_C3_amended_witness :
    (serveHandler
      ⟨some "acct", none, some "p1", [], true, some "gk",
        ForcedOutcome.httpErr 500, Except.error "down", Except.error "down",
        some "i1", [],
        ⟨true, fun _ => none, fun _ => PostOutcome.thrown "x", "t0"⟩,
        PrimaryOutcome.httpErr 429⟩
      true ⟨[⟨"user", "hi"⟩], none, none⟩).1.status = 429 :=
  (claim_C3_amended _ _ "acct" 429 rfl rfl (by decide) (Or.inl rfl) rfl
    (Or.inr ⟨"down", rfl⟩)).2.1

/-- C3 (counterexample): with one real user turn, no supplied insight
id, a 429 primary failure and a failing secondary, the typed 429 error
is returned — but a partial-insight row created earlier in the same
request has been persisted, refuting "nothing is persisted". -/
theorem claim_C3_counterexample :
    (serveHandler
      ⟨some "acct", none, some "p1", [], true, some "gk",
        ForcedOutcome.httpErr 500, Except.error "down", Except.error "down",
        some "i1", [],
        ⟨true, fun _ => none, fun _ => PostOutcome.thrown "x", "t0"⟩,
        PrimaryOutcome.httpErr 429⟩
      true ⟨[⟨"user", "I want to cancel"⟩], none, none⟩).1.status = 429 ∧
    TraceEvent.insertPartial true ∈
      (serveHandler
        ⟨some "acct", none, some "p1", [], true, some "gk",
          ForcedOutcome.httpErr 500, Except.error "down", Except.error "down",
          some "i1", [],
          ⟨true, fun _ => none, fun _ => PostOutcome.thrown "x", "t0"⟩,
          PrimaryOutcome.httpErr 429⟩
        true ⟨[⟨"user", "I want to cancel"⟩], none, none⟩).2 := by
  refine ⟨by decide, by decide⟩

/-- C9 (amended): only the normal streaming-path success response
carries the `x-insight-id` header, and only when an insight id is in
force (supplied by the caller or created as a partial row this
request); hard-stop and secondary-fallback success responses never
carry the header, even when an insight row was created for the
conversation. -/
theorem claim_C9_amended (env : ServeEnv) (body : ReqBody) (accountId : String)
    (hacct : env.accountId = some accountId)
    (hkey : env.hasAnthropicKey = true) :
    (∀ sse, ¬ ((countUserTurns (effectiveMessages body) : Int) ≥
        resolvedMaxExchanges env) →
      env.primary = PrimaryOutcome.ok sse →
      (serveHandler env true body).1.headers =
        (if optTruthy (resolvedInsightId env body) then
          [ctSse, ("x-insight-id", (resolvedInsightId env body).getD "")]
        else [ctSse])) ∧
    (∀ j, (countUserTurns (effectiveMessages body) : Int) ≥
        resolvedMaxExchanges env →
      env.forced = ForcedOutcome.ok j →
      (serveHandler env true body).1.headers = [ctSse]) ∧
    (∀ st t, ¬ ((countUserTurns (effectiveMessages body) : Int) ≥
        resolvedMaxExchanges env) →
      env.primary = PrimaryOutcome.httpErr st →
      ((st == 429 || st == 402) && optTruthy env.geminiKey) = true →
      env.geminiFallback = Except.ok t →
      (serveHandler env true body).1.headers = [ctSse]) := by
  refine ⟨?_, ?_, ?_⟩
  · intro sse hsoft hprim
    simp [serveHandler, hacct, hkey, hsoft, hprim, resolvedInsightId]
  · intro j hhard hforced
    simp [serveHandler, hacct, hkey, hhard, hforced]
  · intro st t hsoft hprim hcond hfb
    simp [serveHandler, hacct, hkey, hsoft, hprim, hcond, hfb]

theorem claim_C9_amended_witness :
    (serveHandler
      ⟨some "acct", none, some "p1", [], true, none, ForcedOutcome.httpErr 500,
        Except.error "e", Except.error "e", some "i1", [],
        ⟨true, fun _ => none, fun _ => PostOutcome.thrown "x", "t0"⟩,
        PrimaryOutcome.ok "data: [DONE]\n\n"⟩
      true ⟨[⟨"user", "hi"⟩], none, some "known-id"⟩).1.headers =
      (if optTruthy (resolvedInsightId
          ⟨some "acct", none, some "p1", [], true, none, ForcedOutcome.httpErr 500,
            Except.error "e", Except.error "e", some "i1", [],
            ⟨true, fun _ => none, fun _ => PostOutcome.thrown "x", "t0"⟩,
            PrimaryOutcome.ok "data: [DONE]\n\n"⟩
          ⟨[⟨"user", "hi"⟩], none, some "known-id"⟩) then
        [ctSse, ("x-insight-id",
          (resolvedInsightId
            ⟨some "acct", none, some "p1", [], true, none, ForcedOutcome.httpErr 500,
              Except.error "e", Except.error "e", some "i1", [],
              ⟨true, fun _ => none, fun _ => PostOutcome.thrown "x", "t0"⟩,
              PrimaryOutcome.ok "data: [DONE]\n\n"⟩
            ⟨[⟨"user", "hi"⟩], none, some "known-id"⟩).getD "")]
      else [ctSse]) :=
  (claim_C9_amended _ _ "acct" rfl rfl).1 "data: [DONE]\n\n" (by decide) rfl

/-- C9 (counterexample): a hard-stop request that created an insight
row (a partial row, id `"p1"`) receives a successful stream whose
headers do not expose any `x-insight-id`, refuting the claim that every
successful response carries the identifier. -/
theorem claim_C9_counterexample :
    (serveHandler
      ⟨some "acct", some ⟨NumVal.fin (JsNum.ofInt 1), NumVal.fin (JsNum.ofInt 1)⟩,
        some "p1", [], true, none, ForcedOutcome.ok (JsVal.obj [("content",
          JsVal.arr [JsVal.obj [("type", JsVal.str "text"),
            ("text", JsVal.str "Thanks, all noted. [INTERVIEW_COMPLETE]")]])]),
        Except.error "e", Except.error "e", some "i1", [],
        ⟨true, fun _ => none, fun _ => PostOutcome.thrown "x", "t0"⟩,
        PrimaryOutcome.httpErr 500⟩
      true ⟨[⟨"user", "goodbye"⟩], none, none⟩).1.status = 200 ∧
    (serveHandler
      ⟨some "acct", some ⟨NumVal.fin (JsNum.ofInt 1), NumVal.fin (JsNum.ofInt 1)⟩,
        some "p1", [], true, none, ForcedOutcome.ok (JsVal.obj [("content",
          JsVal.arr [JsVal.obj [("type", JsVal.str "text"),
            ("text", JsVal.str "Thanks, all noted. [INTERVIEW_COMPLETE]")]])]),
        Except.error "e", Except.error "e", some "i1", [],
        ⟨true, fun _ => none, fun _ => PostOutcome.thrown "x", "t0"⟩,
        PrimaryOutcome.httpErr 500⟩
      true ⟨[⟨"user", "goodbye"⟩], none, none⟩).1.headers.lookup
        "x-insight-id" = none ∧
    TraceEvent.insertPartial true ∈
      (serveHandler
        ⟨some "acct", some ⟨NumVal.fin (JsNum.ofInt 1), NumVal.fin (JsNum.ofInt 1)⟩,
          some "p1", [], true, none, ForcedOutcome.ok (JsVal.obj [("content",
            JsVal.arr [JsVal.obj [("type", JsVal.str "text"),
              ("text", JsVal.str "Thanks, all noted. [INTERVIEW_COMPLETE]")]])]),
          Except.error "e", Except.error "e", some "i1", [],
          ⟨true, fun _ => none, fun _ => PostOutcome.thrown "x", "t0"⟩,
          PrimaryOutcome.httpErr 500⟩
        true ⟨[⟨"user", "goodbye"⟩], none, none⟩).2 := by
  refine ⟨by decide, by decide, by decide⟩

/-! ## Claim C10 -/

theorem hexVal_hexDigit (n : Nat) (h : n < 16) : hexVal (hexDigit n) = some n := by
  interval_cases n <;> rfl

theorem hexDigit_ne_nl (n : Nat) (h : n < 16) : hexDigit n ≠ '\n' := by
  interval_cases n <;> decide

theorem escChars_no_nl (c : Char) : '\n' ∉ escChars c := by
  unfold escChars
  split_ifs with h1 h2 h3 h4 h5 h6 h7 h8
  · decide
  · decide
  · decide
  · decide
  · decide
  · decide
  · decide
  · have hb1 := hexDigit_ne_nl (c.toNat / 16) (by omega)
    have hb2 := hexDigit_ne_nl (c.toNat % 16) (by omega)
    simp [List.mem_cons]
    exact ⟨fun he => hb1 he.symm, fun he => hb2 he.symm⟩
  · intro hm
    rw [List.mem_singleton] at hm
    exact h5 hm.symm

theorem escList_no_nl (s : List Char) : '\n' ∉ escList s := by
  rw [escList]
  intro hm
  rw [List.mem_flatten] at hm
  obtain ⟨l, hl, hml⟩ := hm
  rw [List.mem_map] at hl
  obtain ⟨c, _, hc⟩ := hl
  rw [← hc] at hml
  exact escChars_no_nl c hml

/-- Decoding inverts `JSON.stringify` escaping: the string-body parser
applied to the escaped text followed by a closing quote recovers the
original characters. -/
theorem parseStrBody_escList (t rest : List Char) :
    parseStrBody (escList t ++ '"' :: rest) = some (t, rest) := by
  induction t with
  | nil => simp [escList, parseStrBody.eq_def ]
  | cons c cs ih =>
    have hesc : escList (c :: cs) ++ '"' :: rest =
        escChars c ++ (escList cs ++ '"' :: rest) := by
      simp [escList]
    rw [hesc]
    by_cases h1 : c = '"'
    · subst h1; simp [escChars, parseStrBody, jsonUnescChar, ih]
    by_cases h2 : c = '\\'
    · subst h2; simp [escChars, parseStrBody, jsonUnescChar, ih]
    by_cases h3 : c = '\x08'
    · subst h3; simp [escChars, h1, h2, parseStrBody, jsonUnescChar, ih]
    by_cases h4 : c = '\x09'
    · subst h4; simp [escChars, h1, h2, h3, parseStrBody, jsonUnescChar, ih]
    by_cases h5 : c = '\x0A'
    · subst h5; simp [escChars, h1, h2, h3, h4, parseStrBody, jsonUnescChar, ih]
    by_cases h6 : c = '\x0C'
    · subst h6
      simp [escChars, h1, h2, h3, h4, h5, parseStrBody, jsonUnescChar, ih]
    by_cases h7 : c = '\x0D'
    · subst h7
      simp [escChars, h1, h2, h3, h4, h5, h6, parseStrBody, jsonUnescChar, ih]
    by_cases h8 : c.toNat < 32
    · have hd1 := hexVal_hexDigit (c.toNat / 16) (by omega)
      have hd2 := hexVal_hexDigit (c.toNat % 16) (by omega)
      have hchar : Char.ofNat (c.toNat / 16 * 16 + c.toNat % 16) = c := by
        have harith : c.toNat / 16 * 16 + c.toNat % 16 = c.toNat := by
          have := Nat.div_add_mod c.toNat 16
          omega
        rw [harith]
        exact Char.ofNat_toNat c
      have h00 : hexVal '0' = some 0 := rfl
      simp only [escChars, h1, h2, h3, h4, h5, h6, h7, h8, if_true, if_false,
        reduceIte, List.cons_append, List.nil_append]
      rw [parseStrBody]
      simp [h00, hd1, hd2, hchar, ih]
    · have hne32 : ¬ c.toNat < 32 := h8
      simp only [escChars, h1, h2, h3, h4, h5, h6, h7, hne32, if_false,
        reduceIte, List.cons_append, List.nil_append]
      rw [ parseStrBody.eq_def]
      simp [h1, h2, hne32, ih]

/-- The JSON text of the single `content_block_delta` event emitted by
`textToAnthropicSSE`. -/
def sseEventJson (t : String) : List Char :=
  "\x7b\"type\":\"content_block_delta\",\"delta\":\x7b\"type\":\"text_delta\",\"text\":\"".data ++
    (escList t.data ++ "\"\x7d\x7d".data)

/-- The value that event parses to. -/
def sseEventVal (t : String) : JsVal :=
  JsVal.obj [("type", JsVal.str "content_block_delta"),
    ("delta", JsVal.obj [("type", JsVal.str "text_delta"),
      ("text", JsVal.str t)])]

theorem parseVal_sseEventJson (f : Nat) (t : String) :
    parseVal (f + 7) (sseEventJson t) = some (sseEventVal t, []) := by
  simp [sseEventJson, sseEventVal, parseVal, parseMembers, parseStrBody,
    skipJsonWs, isJsonWs, parseStrBody_escList]

theorem ltrimL_cons_of_not_ws {c : Char} (rest : List Char)
    (h : isJsWs c = false) : ltrimL (c :: rest) = c :: rest := by
  rw [ltrimL, h]
  simp

theorem trimL_eq_self {l : List Char}
    (h1 : ∀ c, l.head? = some c → isJsWs c = false)
    (h2 : ∀ c, l.getLast? = some c → isJsWs c = false) : trimL l = l := by
  have hl : ltrimL l = l := by
    cases l with
    | nil => rfl
    | cons c rest => exact ltrimL_cons_of_not_ws rest (h1 c rfl)
  rw [trimL, hl, rtrimL]
  cases hr : l.reverse with
  | nil => simp at hr; rw [hr]; rfl
  | cons c rest =>
    have hc : isJsWs c = false := by
      apply h2
      rw [← List.head?_reverse, hr]
      rfl
    rw [ltrimL_cons_of_not_ws rest hc, ← hr, List.reverse_reverse]

theorem splitOnChar_cons_sep (sep : Char) (b : List Char) :
    splitOnChar sep (sep :: b) = [] :: splitOnChar sep b := by
  rw [splitOnChar]
  simp

theorem splitOnChar_append {sep : Char} {a b l : List Char}
    {ls : List (List Char)} (h : sep ∉ a)
    (hb : splitOnChar sep b = l :: ls) :
    splitOnChar sep (a ++ b) = (a ++ l) :: ls := by
  induction a with
  | nil => simpa using hb
  | cons c a ih =>
    have hc : c ≠ sep := fun he => h (he ▸ List.mem_cons_self c a)
    have ha : sep ∉ a := fun hm => h (List.mem_cons_of_mem c hm)
    rw [List.cons_append, splitOnChar, if_neg hc, ih ha]
    simp

theorem isPrefixOf_self_append (p x : List Char) :
    p.isPrefixOf (p ++ x) = true := by
  induction p with
  | nil => simp [List.isPrefixOf]
  | cons c p ih => simp [List.isPrefixOf, ih]

theorem parseJsonText_sseEventJson (t : String) :
    parseJsonText (String.mk (sseEventJson t)) = some (sseEventVal t) := by
  have hlen : 6 ≤ (sseEventJson t).length := by
    simp [sseEventJson]
  have hsplit7 : (sseEventJson t).length + 1 =
      ((sseEventJson t).length - 6) + 7 := by omega
  rw [parseJsonText]
  rw [show (String.mk (sseEventJson t)).data = sseEventJson t from rfl]
  rw [hsplit7, parseVal_sseEventJson]
  rfl

theorem sseLineText_event (t : String) :
    sseLineText ("data: ".data ++ sseEventJson t) = t := by
  have htrim : trimL (sseEventJson t) = sseEventJson t := by
    apply trimL_eq_self
    · intro c hc
      rw [show sseEventJson t =
        '{' :: ("\"type\":\"content_block_delta\",\"delta\":\x7b\"type\":\"text_delta\",\"text\":\"".data ++
          (escList t.data ++ "\"\x7d\x7d".data)) from by simp [sseEventJson]] at hc
      cases hc
      rfl
    · intro c hc
      have hrev : (sseEventJson t).getLast? = some '}' := by
        rw [← List.head?_reverse]
        simp [sseEventJson]
      rw [hrev] at hc
      cases hc
      rfl
  rw [sseLineText, if_pos (isPrefixOf_self_append _ _)]
  rw [show (("data: ".data ++ sseEventJson t).drop 6) = sseEventJson t from by
    rw [show (6 : Nat) = ("data: ".data).length from rfl, List.drop_left]]
  rw [htrim, parseJsonText_sseEventJson]
  simp [sseEventVal, jsGet, jsIsStr, jsToString]

/-- C10: decoding the synthesized canonical stream recovers the
original text exactly — `extractTextFromSSE` applied to the payload of
`textToAnthropicSSE(t)` equals `t`, so a secondary-provider response
wrapped in the canonical framing round-trips losslessly through the
same extractor used for primary streams. -/
theorem claim_C10_roundtrip (t : String) :
    extractTextFromSSE (ssePayload t) = t := by
  have hdata : (ssePayload t).data =
      ("data: ".data ++ sseEventJson t) ++ '\n' ::
        ('\n' :: ("data: [DONE]".data ++ '\n' :: ('\n' :: []))) := by
    simp [ssePayload, jsonQuote, sseEventJson, List.append_assoc]
  have hnl1 : '\n' ∉ ("data: ".data ++ sseEventJson t) := by
    intro hm
    rcases List.mem_append.mp hm with h | h
    · revert h; decide
    · rw [sseEventJson] at h
      rcases List.mem_append.mp h with h2 | h2
      · revert h2; decide
      · rcases List.mem_append.mp h2 with h3 | h3
        · exact escList_no_nl _ h3
        · revert h3; decide
  have hnl3 : '\n' ∉ "data: [DONE]".data := by decide
  have hsplit : splitOnChar '\n' (ssePayload t).data =
      [("data: ".data ++ sseEventJson t), [], "data: [DONE]".data, [], []] := by
    rw [hdata]
    rw [splitOnChar_append hnl1 (splitOnChar_cons_sep '\n' _)]
    rw [splitOnChar_cons_sep]
    rw [splitOnChar_append hnl3 (splitOnChar_cons_sep '\n' _)]
    rw [splitOnChar_cons_sep]
    simp [splitOnChar]
  rw [extractTextFromSSE, hsplit]
  rw [show ([("data: ".data ++ sseEventJson t), [], "data: [DONE]".data,
      [], []].map sseLineText) =
    [sseLineText ("data: ".data ++ sseEventJson t), sseLineText [],
      sseLineText "data: [DONE]".data, sseLineText [], sseLineText []]
    from rfl]
  rw [sseLineText_event]
  rw [show sseLineText [] = "" from rfl]
  rw [show sseLineText "data: [DONE]".data = "" from by decide]
  simp [String.join]

end LastWord
